import Mathlib

set_option maxRecDepth 4000

/-!
Shallow embedding of the nyar-vm repository (oovm/nyar-vm) for checking its
natural-language specification.  The repository contains several parallel
drafts of the virtual machine; the embedding keeps them apart:

* namespace NyarVM   — the monolithic interpreter in
  projects/nyar-vm/src/vm.rs together with value.rs, error.rs, heap.rs and
  instruction.rs of the same crate;
* namespace NyarLir  — the heap of projects/nyar-lir/src/heap/mod.rs and the
  value model of projects/nyar-lir/src/values/mod.rs;
* namespace NyarMod  — the modular draft in projects/nyar-vm/src/vm/
  (mod.rs, instruction_executor.rs, environment.rs, coroutine.rs,
  effect_handler.rs), which runs on the NyarLir value model;
* namespace NyarGc   — the mark–compact collector of
  projects/nyar-gc/src/heap/mod.rs with its value model.

Rust Vec-s are modelled as Lean lists in the same order (element 0 first);
Vec::push appends at the end and Vec::pop removes the last element, mirrored
by vecPush / vecPop below.  HashMap<String, _> is modelled as an association
list with insert-replaces-existing-key semantics; only map contents (not
iteration order) are relevant to the claims.  usize is modelled as Nat, with
the single wrapping cast (`as usize` on an isize) modelled explicitly modulo
2^64.
-/

/-- Vec::push appends at the end of the vector. -/
def vecPush {α : Type} (s : List α) (x : α) : List α := s ++ [x]

/-- Vec::pop removes and returns the last element. -/
def vecPop {α : Type} (s : List α) : Option (α × List α) :=
  match s.reverse with
  | [] => none
  | x :: rest => some (x, rest.reverse)

/-- Vec::last returns the last element without removing it. -/
def vecLast {α : Type} (s : List α) : Option α := s.getLast?

/-- Popping n values one by one (first component lists them in pop order,
meaning top of stack first); none when the vector runs out. -/
def vecPopN {α : Type} (s : List α) : Nat → Option (List α × List α)
  | 0 => some ([], s)
  | n + 1 =>
    match vecPop s with
    | none => none
    | some (x, s1) =>
      match vecPopN s1 n with
      | none => none
      | some (xs, s2) => some (x :: xs, s2)

/-- HashMap::insert: replace the binding if the key is present, append
otherwise. -/
def mapInsert {β : Type} (m : List (String × β)) (k : String) (v : β) :
    List (String × β) :=
  match m with
  | [] => [(k, v)]
  | (k0, v0) :: rest =>
    if k0 = k then (k, v) :: rest else (k0, v0) :: mapInsert rest k v

/-- HashMap::get. -/
def mapGet {β : Type} (m : List (String × β)) (k : String) : Option β :=
  match m with
  | [] => none
  | (k0, v0) :: rest => if k0 = k then some v0 else mapGet rest k

/-- The wrapping cast `x as usize` applied to an isize value. -/
def castUsize (t : Int) : Nat := (t % (2 ^ 64 : Int)).toNat

/-- Alias for the string type, usable inside namespaces whose value type has
a constructor named String. -/
abbrev Str := String

/-- Alias for lists of indices, usable inside namespaces whose value type
has a constructor named List. -/
abbrev NatList := List Nat

namespace NyarVM

/-- projects/nyar-vm/src/error.rs: enum VmError (payload strings kept,
&'static str payloads modelled as String). -/
inductive VmError where
  | TypeMismatch (expected : String) (found : String)
  | UndefinedVariable (name : String)
  | UndefinedProperty (object_type : String) (property : String)
  | IndexOutOfBounds (index : Nat) (length : Nat)
  | InvalidGcIndex (index : Nat)
  | DeadObjectAccess (index : Nat)
  | NotCallable (type_name : String)
  | ArgumentCountMismatch (expected : Nat) (found : Nat)
  | UnhandledEffect (name : String)
  | InvalidJumpTarget
  | InvalidLabel (label : String)
  | StackOverflow
  | StackUnderflow
  | CoroutineError (msg : String)
  | RuntimeError (msg : String)
deriving DecidableEq, Repr

/-- projects/nyar-vm/src/heap.rs: Gc<T> is an index into the heap; the
phantom type parameter has no runtime content, so a handle is a Nat. -/
abbrev Gc := Nat

/-- projects/nyar-vm/src/value.rs: enum Value.  Composite variants hold
Gc handles (indices); Array and Object hold their element handles inline
exactly as in the source (Vec<Gc<Value>> and HashMap<String, Gc<Value>>). -/
inductive Value where
  | Null
  | Boolean (b : Bool)
  | BigInt (n : Int)
  | String (s : Gc)
  | Array (elems : List Gc)
  | Object (map : List (String × Gc))
  | Function (f : Gc)
  | Class (c : Gc)
  | Trait (t : Gc)
  | Enum (e : Gc)
  | Coroutine (c : Gc)
deriving DecidableEq, Repr

/-- Value::type_name. -/
def Value.type_name : Value → Str
  | .Null => "null"
  | .Boolean _ => "boolean"
  | .BigInt _ => "bigint"
  | .String _ => "string"
  | .Array _ => "array"
  | .Object _ => "object"
  | .Function _ => "function"
  | .Class _ => "class"
  | .Trait _ => "trait"
  | .Enum _ => "enum"
  | .Coroutine _ => "coroutine"

/-- The Display impl for Gc<T> in heap.rs renders a handle as the text
Gc(index); value.rs calls s.to_string() on the Gc<String> handle itself
(not on the pointed-to string), so this text is what is inspected. -/
def gcDisplayString (i : Gc) : String := "Gc(" ++ toString i ++ ")"

/-- Value::is_truthy from value.rs.  Note that the String arm tests
emptiness of the rendered handle text (s.to_string() on the Gc), which is
never empty. -/
def Value.is_truthy : Value → Bool
  | .Null => false
  | .Boolean b => b
  | .BigInt n => !(n == 0)
  | .String s => !(gcDisplayString s).isEmpty
  | _ => true

/-- projects/nyar-vm/src/instruction.rs: enum Instruction. -/
inductive Instruction where
  | PushConstant (value : Value)
  | PushVariable (name : String)
  | StoreVariable (name : String)
  | GetIndex (index : Nat)
  | SetIndex (index : Nat)
  | GetProperty (name : String)
  | SetProperty (name : String)
  | Call (argument_count : Nat)
  | CreateFunction (name : Option String) (parameter_count : Nat) (body_size : Nat)
  | CreateClosure (captured_variables : List String)
  | CreateArray (size : Nat)
  | CreateObject (property_count : Nat)
  | CreateClass (name : String) (method_count : Nat) (property_count : Nat)
  | CreateTrait (name : String) (method_count : Nat)
  | CreateEnum (name : String) (variant_count : Nat)
  | Jump (offset : Int)
  | JumpIfFalse (offset : Int)
  | LoopStart (label : Option String)
  | LoopEnd (label : Option String)
  | Break (label : Option String)
  | Continue (label : Option String)
  | MatchStart
  | MatchCase (fall_through : Bool)
  | MatchEnd
  | Return
  | CreateCoroutine
  | ResumeCoroutine
  | YieldCoroutine (value_count : Nat)
  | Await
  | BlockOn
  | FireThenIgnore
  | RaiseEffect (name : String) (argument_count : Nat)
  | HandleEffect (name : String)
  | ResumeEffect (value_count : Nat)
deriving DecidableEq, Repr

/-- value.rs: enum CoroutineState. -/
inductive CoroutineState where
  | Initial
  | Running
  | Suspended
  | Completed
  | Failed
deriving DecidableEq, Repr

/-- value.rs: struct Function (the function record behind a Gc<Function>). -/
structure FunctionRec where
  name : Option String
  parameters : List String
  body : List Instruction
  environment : Gc
deriving DecidableEq, Repr

/-- value.rs: struct Coroutine (the record behind a Gc<Coroutine>). -/
structure CoroutineRec where
  state : CoroutineState
  function : Gc
  instruction_pointer : Nat
  value_stack : List Gc
  call_stack : List Gc
  environment_stack : List Gc
  effect_handlers : List Gc
deriving DecidableEq, Repr

/-- value.rs: struct EffectHandler (the record behind a Gc<EffectHandler>). -/
structure EffectHandlerRec where
  name : String
  handler : Gc
  resume_point : Option Nat
deriving DecidableEq, Repr

/-- Contents of one heap cell.  The source stores Value in every GcMarker
and reaches the typed records through typed handles Gc<Function>,
Gc<Coroutine>, Gc<EffectHandler> and Gc<HashMap> whose TryFrom projections
are incomplete in the source (Function's is a todo); the embedding gives
each record kind its own cell shape, which is what those typed derefs
require.  Environment cells are Value.Object cells, matching the one
TryFrom impl that exists (for &HashMap via Value::Object). -/
inductive Cell where
  | value (v : Value)
  | strVal (s : String)
  | func (f : FunctionRec)
  | coro (c : CoroutineRec)
  | handlerRec (h : EffectHandlerRec)
deriving DecidableEq, Repr

/-- heap.rs: struct GcMarker. -/
structure GcMarker where
  value : Cell
  marked : Bool
deriving DecidableEq, Repr

/-- heap.rs: struct Heap. -/
structure Heap where
  roots : List Nat
  memory : List GcMarker
  free_indices : List Nat
deriving DecidableEq, Repr

/-- Heap::new. -/
def Heap.new : Heap := { roots := [], memory := [], free_indices := [] }

/-- Heap::allocate: reuse a free index (Vec::pop takes the last) or append;
the fresh cell is marked. -/
def Heap.allocate (h : Heap) (value : Cell) : Heap × Gc :=
  match vecPop h.free_indices with
  | some (index, rest) =>
    ({ h with memory := h.memory.set index { value := value, marked := true },
              free_indices := rest }, index)
  | none =>
    let index := h.memory.length
    ({ h with memory := h.memory ++ [{ value := value, marked := true }] }, index)

/-- Gc::deref's shared part: fetch the cell, failing on a dead (unmarked)
cell or an out-of-range index, as in heap.rs. -/
def derefCell (h : Heap) (g : Gc) : Except VmError Cell :=
  match h.memory.get? g with
  | some s => if s.marked then .ok s.value else .error (.DeadObjectAccess g)
  | none => .error (.InvalidGcIndex g)

/-- Gc<Value>::deref: the cell must hold a plain Value. -/
def derefValue (h : Heap) (g : Gc) : Except VmError Value :=
  match derefCell h g with
  | .ok (.value v) => .ok v
  | .ok _ => .error (.TypeMismatch "value" "record")
  | .error e => .error e

/-- Gc<Function>::deref. -/
def derefFunction (h : Heap) (g : Gc) : Except VmError FunctionRec :=
  match derefCell h g with
  | .ok (.func f) => .ok f
  | .ok _ => .error (.TypeMismatch "function" "non-function")
  | .error e => .error e

/-- Gc<Coroutine>::deref. -/
def derefCoroutine (h : Heap) (g : Gc) : Except VmError CoroutineRec :=
  match derefCell h g with
  | .ok (.coro c) => .ok c
  | .ok _ => .error (.TypeMismatch "coroutine" "non-coroutine")
  | .error e => .error e

/-- Gc<EffectHandler>::deref. -/
def derefHandler (h : Heap) (g : Gc) : Except VmError EffectHandlerRec :=
  match derefCell h g with
  | .ok (.handlerRec r) => .ok r
  | .ok _ => .error (.TypeMismatch "handler" "non-handler")
  | .error e => .error e

/-- Gc<HashMap<String, Gc<Value>>>::deref goes through the TryFrom impl for
&HashMap, which projects Value::Object. -/
def derefEnv (h : Heap) (g : Gc) : Except VmError (List (String × Gc)) :=
  match derefCell h g with
  | .ok (.value (.Object m)) => .ok m
  | .ok _ => .error (.TypeMismatch "object" "non-object")
  | .error e => .error e

/-- Overwrite the map stored in an environment cell.  vm.rs inserts through
the result of an immutable deref; the evident intent (an in-place update of
the heap cell, as the spec describes) is modelled.  Nothing happens when
the cell is dead, missing or not an Object, matching the if-let guards. -/
def setEnvCell (h : Heap) (g : Gc) (m : List (String × Gc)) : Heap :=
  match h.memory.get? g with
  | some s =>
    if s.marked then
      match s.value with
      | .value (.Object _) =>
        { h with memory := h.memory.set g { s with value := .value (.Object m) } }
      | _ => h
    else h
  | none => h

/-- Update the coroutine record behind a handle (used by the if-let-Ok
mutations of vm.rs, modelled as heap-cell updates). -/
def updateCoro (h : Heap) (g : Gc) (f : CoroutineRec → CoroutineRec) : Heap :=
  match h.memory.get? g with
  | some s =>
    if s.marked then
      match s.value with
      | .coro c => { h with memory := h.memory.set g { s with value := .coro (f c) } }
      | _ => h
    else h
  | none => h

/-- Update the effect-handler record behind a handle. -/
def updateHandlerCell (h : Heap) (g : Gc) (f : EffectHandlerRec → EffectHandlerRec) :
    Heap :=
  match h.memory.get? g with
  | some s =>
    if s.marked then
      match s.value with
      | .handlerRec r =>
        { h with memory := h.memory.set g { s with value := .handlerRec (f r) } }
      | _ => h
    else h
  | none => h

/-- vm.rs: enum VmState. -/
inductive VmState where
  | Initial
  | Running
  | Suspended
  | Completed
  | Failed (e : VmError)
deriving DecidableEq, Repr

/-- vm.rs: struct VirtualMachine. -/
structure VM where
  heap : Heap
  state : VmState
  value_stack : List Gc
  call_stack : List Gc
  environment_stack : List Gc
  instruction_pointer : Nat
  instructions : List Instruction
  globals : Gc
  current_coroutine : Option Gc
  effect_handlers : List Gc
  max_stack_depth : Nat
  max_call_depth : Nat
deriving DecidableEq, Repr

/-- VirtualMachine::new.  The source allocates the globals cell with an
ill-typed Object placeholder; the evident intent, an empty global map, is
allocated. -/
def VM.new : VM :=
  let (heap, globals) := Heap.new.allocate (.value (.Object []))
  { heap := heap,
    state := .Initial,
    value_stack := [],
    call_stack := [],
    environment_stack := [],
    instruction_pointer := 0,
    instructions := [],
    globals := globals,
    current_coroutine := none,
    effect_handlers := [],
    max_stack_depth := 1000,
    max_call_depth := 100 }

/-- vm.rs: struct ExecutionState (saved and restored around coroutine
resumption). -/
structure ExecutionState where
  instruction_pointer : Nat
  instructions : List Instruction
  value_stack : List Gc
  call_stack : List Gc
  environment_stack : List Gc
  effect_handlers : List Gc
deriving DecidableEq, Repr

/-- VirtualMachine::save_execution_state. -/
def save_execution_state (vm : VM) : ExecutionState :=
  { instruction_pointer := vm.instruction_pointer,
    instructions := vm.instructions,
    value_stack := vm.value_stack,
    call_stack := vm.call_stack,
    environment_stack := vm.environment_stack,
    effect_handlers := vm.effect_handlers }

/-- VirtualMachine::restore_execution_state. -/
def restore_execution_state (vm : VM) (s : ExecutionState) : VM :=
  { vm with
    instruction_pointer := s.instruction_pointer,
    instructions := s.instructions,
    value_stack := s.value_stack,
    call_stack := s.call_stack,
    environment_stack := s.environment_stack,
    effect_handlers := s.effect_handlers }

/-- VirtualMachine::load_coroutine_state.  The source stores a literal
placeholder handle Gc with index 0 into current_coroutine (its comment says
the real index is needed there), keeps the old instruction list when the
coroutine's function fails to deref, and copies the saved stacks. -/
def load_coroutine_state (vm : VM) (co : CoroutineRec) : VM :=
  let instrs :=
    match derefFunction vm.heap co.function with
    | .ok f => f.body
    | .error _ => vm.instructions
  { vm with
    current_coroutine := some 0,
    instruction_pointer := co.instruction_pointer,
    instructions := instrs,
    value_stack := co.value_stack,
    call_stack := co.call_stack,
    environment_stack := co.environment_stack,
    effect_handlers := co.effect_handlers }

/-- VirtualMachine::save_coroutine_state (writes the live context into the
coroutine record; the state field is not touched here). -/
def save_coroutine_state (vm : VM) (c : Gc) : VM :=
  { vm with
    heap := updateCoro vm.heap c (fun co =>
      { co with
        instruction_pointer := vm.instruction_pointer,
        value_stack := vm.value_stack,
        call_stack := vm.call_stack,
        environment_stack := vm.environment_stack,
        effect_handlers := vm.effect_handlers }) }

/-- Set the state of the coroutine referenced by current_coroutine, if any
(the repeated if-let-Ok pattern of execute_coroutine). -/
def setCurrentCoroutineState (vm : VM) (st : CoroutineState) : VM :=
  match vm.current_coroutine with
  | none => vm
  | some g => { vm with heap := updateCoro vm.heap g (fun co => { co with state := st }) }

/-- VirtualMachine::find_effect_handler: walk the handler stack from the
most recently installed handler (Vec end) backwards; handlers whose deref
fails are skipped by the if-let; no match is UnhandledEffect. -/
def findHandlerRev (h : Heap) (name : String) : List Gc → Except VmError Gc
  | [] => .error (.UnhandledEffect name)
  | g :: rest =>
    match derefHandler h g with
    | .ok r => if r.name = name then .ok g else findHandlerRev h name rest
    | .error _ => findHandlerRev h name rest

/-- VirtualMachine::find_effect_handler. -/
def find_effect_handler (vm : VM) (name : String) : Except VmError Gc :=
  findHandlerRev vm.heap name vm.effect_handlers.reverse

/-- Parameter-name popping loop of the CreateFunction arm: pops one value
per parameter, requiring each to deref to Value::String.  The source then
calls to_string() on the Gc<String> handle, so the recorded parameter name
is the rendered handle text.  On error the partially popped stack is
reported alongside (the source returns with those pops applied). -/
def popParams (h : Heap) (stack : List Gc) :
    Nat → Except (VmError × List Gc) (List String × List Gc)
  | 0 => .ok ([], stack)
  | n + 1 =>
    match vecPop stack with
    | none => .error (.StackUnderflow, stack)
    | some (p, rest) =>
      match derefValue h p with
      | .ok (.String s) =>
        match popParams h rest n with
        | .ok (ps, r2) => .ok (gcDisplayString s :: ps, r2)
        | .error e => .error e
      | _ => .error (.TypeMismatch "string" "non-string", rest)

/-- Environment built by the Call and RaiseEffect arms: bind parameters to
arguments, then merge the closure environment over them. -/
def buildCallEnv (h : Heap) (func : FunctionRec) (args : List Gc) :
    List (String × Gc) :=
  let base := (func.parameters.zip args).foldl
    (fun m p => mapInsert m p.1 p.2) []
  match derefEnv h func.environment with
  | .ok closure_env => closure_env.foldl (fun m p => mapInsert m p.1 p.2) base
  | .error _ => base

mutual

/-- VirtualMachine::execute_instruction of vm.rs.  The two stack-depth
guards run first; the nested interpreter loops (function calls, coroutine
bodies, effect-handler bodies) are driven on an explicit fuel, whose
exhaustion is reported as a RuntimeError that no claim relies on.  The
instruction fetch indexes the instruction list; the source would panic on
an out-of-range instruction pointer, which every driving loop excludes, and
the embedding reports it as a RuntimeError.  Errors are returned together
with the virtual machine exactly as mutated so far (the source takes
&mut self). -/
def executeInstruction : Nat → VM → VM × Option VmError
  | fuel, vm =>
    if vm.value_stack.length > vm.max_stack_depth then (vm, some .StackOverflow)
    else if vm.call_stack.length > vm.max_call_depth then (vm, some .StackOverflow)
    else
      match fuel with
      | 0 => (vm, some (.RuntimeError "out of fuel"))
      | f + 1 =>
        match vm.instructions.get? vm.instruction_pointer with
        | none => (vm, some (.RuntimeError "instruction pointer out of range"))
        | some instruction =>
          let vm := { vm with instruction_pointer := vm.instruction_pointer + 1 }
          match instruction with
          | .PushConstant value =>
            let (heap2, gc_value) := vm.heap.allocate (.value value)
            ({ vm with heap := heap2, value_stack := vecPush vm.value_stack gc_value }, none)
          | .PushVariable name =>
            let v1 : Option Gc :=
              match vecLast vm.environment_stack with
              | some env =>
                match derefEnv vm.heap env with
                | .ok env_map => mapGet env_map name
                | .error _ => none
              | none => none
            let v2 : Option Gc :=
              if v1.isNone then
                match derefEnv vm.heap vm.globals with
                | .ok globals_map => mapGet globals_map name
                | .error _ => none
              else v1
            match v2 with
            | some value => ({ vm with value_stack := vecPush vm.value_stack value }, none)
            | none => (vm, some (.UndefinedVariable name))
          | .StoreVariable name =>
            match vecPop vm.value_stack with
            | none => (vm, some .StackUnderflow)
            | some (value, rest) =>
              let vm := { vm with value_stack := rest }
              match vecLast vm.environment_stack with
              | some env =>
                match derefEnv vm.heap env with
                | .ok env_map =>
                  ({ vm with heap := setEnvCell vm.heap env (mapInsert env_map name value) }, none)
                | .error _ =>
                  match derefEnv vm.heap vm.globals with
                  | .ok globals_map =>
                    ({ vm with heap := setEnvCell vm.heap vm.globals (mapInsert globals_map name value) }, none)
                  | .error _ => (vm, none)
              | none =>
                match derefEnv vm.heap vm.globals with
                | .ok globals_map =>
                  ({ vm with heap := setEnvCell vm.heap vm.globals (mapInsert globals_map name value) }, none)
                | .error _ => (vm, none)
          | .Call argument_count =>
            if vm.value_stack.length < argument_count + 1 then (vm, some .StackUnderflow)
            else
              match vecPopN vm.value_stack argument_count with
              | none => (vm, some .StackUnderflow)
              | some (popped, rest1) =>
                let args := popped.reverse
                match vecPop rest1 with
                | none => (vm, some .StackUnderflow)
                | some (function_value, rest2) =>
                  let vm := { vm with value_stack := rest2 }
                  match derefValue vm.heap function_value with
                  | .error e => (vm, some e)
                  | .ok (.Function function) =>
                    match derefFunction vm.heap function with
                    | .error _ => (vm, none)
                    | .ok func =>
                      if func.parameters.length ≠ argument_count then
                        (vm, some (.ArgumentCountMismatch func.parameters.length argument_count))
                      else
                        let current_ip := vm.instruction_pointer
                        let current_instructions := vm.instructions
                        let new_env := buildCallEnv vm.heap func args
                        let (heap2, new_env_gc) := vm.heap.allocate (.value (.Object new_env))
                        let vmIn :=
                          { vm with
                            heap := heap2,
                            environment_stack := vecPush vm.environment_stack new_env_gc,
                            call_stack := vecPush vm.call_stack function,
                            instructions := func.body,
                            instruction_pointer := 0 }
                        let (vm2, e) := callLoop f vmIn
                        ({ vm2 with
                            instructions := current_instructions,
                            instruction_pointer := current_ip,
                            environment_stack := vm2.environment_stack.dropLast,
                            call_stack := vm2.call_stack.dropLast }, e)
                  | .ok other => (vm, some (.NotCallable other.type_name))
          | .CreateFunction name parameter_count body_size =>
            let start := vm.instruction_pointer
            let endIdx := start + body_size
            if endIdx > vm.instructions.length then (vm, some .InvalidJumpTarget)
            else
              let body := (vm.instructions.drop start).take body_size
              let vm := { vm with instruction_pointer := endIdx }
              match popParams vm.heap vm.value_stack parameter_count with
              | .error (e, rest) => ({ vm with value_stack := rest }, some e)
              | .ok (popOrder, rest) =>
                let vm := { vm with value_stack := rest }
                let parameters := popOrder.reverse
                let environment : List (String × Gc) :=
                  match vecLast vm.environment_stack with
                  | some env =>
                    match derefEnv vm.heap env with
                    | .ok env_map => env_map
                    | .error _ => []
                  | none => []
                let (heap2, env_gc) := vm.heap.allocate (.value (.Object environment))
                let _function : FunctionRec :=
                  { name := name, parameters := parameters, body := body,
                    environment := env_gc }
                let (heap3, function_gc) := Heap.allocate heap2 (.value (.Function 0))
                ({ vm with heap := heap3,
                           value_stack := vecPush vm.value_stack function_gc }, none)
          | .CreateCoroutine =>
            match vecPop vm.value_stack with
            | none => (vm, some .StackUnderflow)
            | some (function_value, rest) =>
              let vm := { vm with value_stack := rest }
              match derefValue vm.heap function_value with
              | .error e => (vm, some e)
              | .ok (.Function function) =>
                let _coroutine : CoroutineRec :=
                  { state := .Initial, function := function, instruction_pointer := 0,
                    value_stack := [], call_stack := [], environment_stack := [],
                    effect_handlers := [] }
                let (heap2, coroutine_gc) := vm.heap.allocate (.value (.Coroutine 0))
                ({ vm with heap := heap2,
                           value_stack := vecPush vm.value_stack coroutine_gc }, none)
              | .ok other => (vm, some (.NotCallable other.type_name))
          | .ResumeCoroutine =>
            match vecPop vm.value_stack with
            | none => (vm, some .StackUnderflow)
            | some (coroutine_value, rest) =>
              let vm := { vm with value_stack := rest }
              match derefValue vm.heap coroutine_value with
              | .error e => (vm, some e)
              | .ok (.Coroutine c) =>
                let current_state := save_execution_state vm
                match derefCoroutine vm.heap c with
                | .error _ => (vm, none)
                | .ok co =>
                  if co.state = .Completed ∨ co.state = .Failed then
                    (vm, some (.CoroutineError "Cannot resume completed or failed coroutine"))
                  else
                    let vmLoaded := load_coroutine_state vm co
                    match execute_coroutine f vmLoaded with
                    | (vm2, some e) => (vm2, some e)
                    | (vm2, none) =>
                      let vm3 := save_coroutine_state vm2 c
                      let vm4 := restore_execution_state vm3 current_state
                      match derefCoroutine vm4.heap c with
                      | .ok updated_co =>
                        if updated_co.state = .Completed ∧ updated_co.value_stack ≠ [] then
                          let pushed := vecPush vm4.value_stack (updated_co.value_stack.getD 0 0)
                          ({ vm4 with value_stack := pushed }, none)
                        else (vm4, none)
                      | .error _ => (vm4, none)
              | .ok other => (vm, some (.TypeMismatch "coroutine" other.type_name))
          | .YieldCoroutine value_count =>
            if vm.value_stack.length < value_count then (vm, some .StackUnderflow)
            else
              match vm.current_coroutine with
              | none => (vm, some (.CoroutineError "Cannot yield outside of a coroutine"))
              | some _ => (setCurrentCoroutineState vm .Suspended, none)
          | .RaiseEffect name argument_count =>
            if vm.value_stack.length < argument_count then (vm, some .StackUnderflow)
            else
              match find_effect_handler vm name with
              | .error e => (vm, some e)
              | .ok handler =>
                match vecPopN vm.value_stack argument_count with
                | none => (vm, some .StackUnderflow)
                | some (popped, rest) =>
                  let args := popped.reverse
                  let vm := { vm with value_stack := rest }
                  let vm := { vm with
                    heap := updateHandlerCell vm.heap handler
                      (fun r => { r with resume_point := some vm.instruction_pointer }) }
                  match derefHandler vm.heap handler with
                  | .error _ => (vm, none)
                  | .ok handler_obj =>
                    let function := handler_obj.handler
                    let current_ip := vm.instruction_pointer
                    let current_instructions := vm.instructions
                    match derefFunction vm.heap function with
                    | .error _ => (vm, none)
                    | .ok func =>
                      let new_env := buildCallEnv vm.heap func args
                      let (heap2, new_env_gc) := vm.heap.allocate (.value (.Object new_env))
                      let vmIn :=
                        { vm with
                          heap := heap2,
                          environment_stack := vecPush vm.environment_stack new_env_gc,
                          call_stack := vecPush vm.call_stack function,
                          instructions := func.body,
                          instruction_pointer := 0 }
                      let (vm2, e) := raiseLoop f vmIn
                      ({ vm2 with
                          instructions := current_instructions,
                          instruction_pointer := current_ip,
                          environment_stack := vm2.environment_stack.dropLast,
                          call_stack := vm2.call_stack.dropLast }, e)
          | .HandleEffect name =>
            match vecPop vm.value_stack with
            | none => (vm, some .StackUnderflow)
            | some (handler_value, rest) =>
              let vm := { vm with value_stack := rest }
              match derefValue vm.heap handler_value with
              | .error e => (vm, some e)
              | .ok (.Function handler_function) =>
                let handler : EffectHandlerRec :=
                  { name := name, handler := handler_function, resume_point := none }
                let (heap2, handler_gc) := vm.heap.allocate (.handlerRec handler)
                ({ vm with heap := heap2,
                           effect_handlers := vecPush vm.effect_handlers handler_gc }, none)
              | .ok other => (vm, some (.NotCallable other.type_name))
          | .ResumeEffect value_count =>
            if vm.value_stack.length < value_count then (vm, some .StackUnderflow)
            else
              match vecPopN vm.value_stack value_count with
              | none => (vm, some .StackUnderflow)
              | some (popped, rest) =>
                let values := popped.reverse
                let vm := { vm with value_stack := rest }
                match vecLast vm.effect_handlers with
                | some handler =>
                  match derefHandler vm.heap handler with
                  | .ok handler_obj =>
                    match handler_obj.resume_point with
                    | some resume_point =>
                      ({ vm with
                          instruction_pointer := resume_point,
                          value_stack := values.foldl vecPush vm.value_stack,
                          effect_handlers := vm.effect_handlers.dropLast }, none)
                    | none => (vm, some (.RuntimeError "No effect to resume"))
                  | .error _ => (vm, some (.RuntimeError "No effect to resume"))
                | none => (vm, some (.RuntimeError "No effect to resume"))
          | .Jump offset =>
            let new_ip := castUsize ((vm.instruction_pointer : Int) + offset)
            if new_ip ≥ vm.instructions.length then (vm, some .InvalidJumpTarget)
            else ({ vm with instruction_pointer := new_ip }, none)
          | .JumpIfFalse offset =>
            match vecPop vm.value_stack with
            | none => (vm, some .StackUnderflow)
            | some (condition, rest) =>
              let vm := { vm with value_stack := rest }
              match derefValue vm.heap condition with
              | .error _ => (vm, none)
              | .ok value =>
                if !value.is_truthy then
                  let new_ip := castUsize ((vm.instruction_pointer : Int) + offset)
                  if new_ip ≥ vm.instructions.length then (vm, some .InvalidJumpTarget)
                  else ({ vm with instruction_pointer := new_ip }, none)
                else (vm, none)
          | .Return => (vm, none)
          | _ => (vm, some (.RuntimeError "Instruction not implemented"))

/-- The inner dispatch loop of the Call arm: run until the instruction list
ends or a Return is about to execute. -/
def callLoop : Nat → VM → VM × Option VmError
  | 0, vm => (vm, some (.RuntimeError "out of fuel"))
  | f + 1, vm =>
    match vm.instructions.get? vm.instruction_pointer with
    | none => (vm, none)
    | some .Return => (vm, none)
    | some _ =>
      match executeInstruction f vm with
      | (vm2, some e) => (vm2, some e)
      | (vm2, none) => callLoop f vm2

/-- The inner dispatch loop of the RaiseEffect arm: run until the handler
body ends or a ResumeEffect is about to execute. -/
def raiseLoop : Nat → VM → VM × Option VmError
  | 0, vm => (vm, some (.RuntimeError "out of fuel"))
  | f + 1, vm =>
    match vm.instructions.get? vm.instruction_pointer with
    | none => (vm, none)
    | some (.ResumeEffect _) => (vm, none)
    | some _ =>
      match executeInstruction f vm with
      | (vm2, some e) => (vm2, some e)
      | (vm2, none) => raiseLoop f vm2

/-- VirtualMachine::execute_coroutine: mark the current coroutine Running
and drive its body. -/
def execute_coroutine : Nat → VM → VM × Option VmError
  | 0, vm => (vm, some (.RuntimeError "out of fuel"))
  | f + 1, vm => coroLoop f (setCurrentCoroutineState vm .Running)

/-- The dispatch loop of execute_coroutine: stop after a YieldCoroutine,
mark Completed on Return or at the end of the body, mark Failed on error. -/
def coroLoop : Nat → VM → VM × Option VmError
  | 0, vm => (vm, some (.RuntimeError "out of fuel"))
  | f + 1, vm =>
    match vm.instructions.get? vm.instruction_pointer with
    | none => (setCurrentCoroutineState vm .Completed, none)
    | some (.YieldCoroutine _) =>
      match executeInstruction f vm with
      | (vm2, some e) => (setCurrentCoroutineState vm2 .Failed, some e)
      | (vm2, none) => (vm2, none)
    | some .Return => (setCurrentCoroutineState vm .Completed, none)
    | some _ =>
      match executeInstruction f vm with
      | (vm2, some e) => (setCurrentCoroutineState vm2 .Failed, some e)
      | (vm2, none) => coroLoop f vm2

end

/-- The while loop of VirtualMachine::execute. -/
def executeLoop : Nat → VM → VM × Option VmError
  | 0, vm => (vm, some (.RuntimeError "out of fuel"))
  | f + 1, vm =>
    if vm.instruction_pointer < vm.instructions.length then
      match executeInstruction f vm with
      | (vm2, some e) => (vm2, some e)
      | (vm2, none) => executeLoop f vm2
    else (vm, none)

/-- VirtualMachine::execute of vm.rs: install the program, run the loop,
transition to Failed on error or Completed on success, and return the
popped top of stack or a freshly allocated Null. -/
def VM.execute (fuel : Nat) (vm0 : VM) (instructions : List Instruction) :
    VM × Except VmError Gc :=
  let vm := { vm0 with instructions := instructions, instruction_pointer := 0,
                       state := .Running }
  match executeLoop fuel vm with
  | (vm2, some e) => ({ vm2 with state := .Failed e }, .error e)
  | (vm2, none) =>
    let vm3 := { vm2 with state := .Completed }
    match vecPop vm3.value_stack with
    | some (v, rest) => ({ vm3 with value_stack := rest }, .ok v)
    | none =>
      let (heap2, g) := vm3.heap.allocate (.value .Null)
      ({ vm3 with heap := heap2 }, .ok g)

end NyarVM

namespace NyarLir

/-- nyar-error: NyarError kinds (errors/mod.rs).  The source wraps the kind
with a span and file name, both filled with defaults by the From impl used
by the custom and use_after_free constructors; the embedding keeps the
kind. -/
inductive NyarError where
  | Decode (format : String) (message : String)
  | Encode (format : String) (message : String)
  | Custom (message : String)
  | UseAfterFree (address : Nat)
deriving DecidableEq, Repr

/-- nyar-lir values/mod.rs: enum CoroutineState. -/
inductive CoroutineState where
  | Initial
  | Running
  | Suspended
  | Completed
  | Failed
deriving DecidableEq, Repr

/-- nyar-lir values/mod.rs: struct NyarCoroutine.  All of its handle fields
are Gc indices (Nat). -/
structure NyarCoroutine where
  state : CoroutineState
  function : Nat
  instruction_pointer : Nat
  value_stack : List Nat
  call_stack : List Nat
  environment_stack : List Nat
  effect_handlers : List Nat
deriving DecidableEq, Repr

/-- nyar-lir values/mod.rs: struct NyarHandler. -/
structure NyarHandler where
  name : String
  handler : Nat
  resume_point : Option Nat
deriving DecidableEq, Repr

mutual

/-- nyar-lir values/mod.rs: enum NyarValue.  Function, Coroutine and
Handler records are boxed inline (unlike the NyarVM draft); Vector is the
NyarVector draft whose source file is absent from the crate, modelled from
the spec as an ordered sequence of element handles; Object is the
insertion-ordered NyarObject map from keys to value handles (its Gc<String>
keys are modelled by the key strings, which is what the executor looks up).
BigInt integers are modelled as Int. -/
inductive NyarValue where
  | Null
  | Boolean (b : Bool)
  | Integer (n : Int)
  | String (s : Str)
  | Vector (elements : List Nat)
  | Object (dict : List (Str × Nat))
  | Function (f : NyarFunction)
  | Class (name : Str)
  | Trait (name : Str)
  | Enum (name : Str)
  | Coroutine (c : NyarCoroutine)
  | Handler (h : NyarHandler)

/-- nyar-lir values/mod.rs: struct NyarFunction (mutually recursive with
NyarValue through the instruction list of its body). -/
inductive NyarFunction where
  | mk (name : Option Str) (parameters : List Str) (body : List Instr)
      (environment : Nat) : NyarFunction

/-- The instruction enum consumed by the vm/ module draft
(projects/nyar-vm/src/vm/instruction_executor.rs matches on it as
nyar_lir::Instruction; the declaration itself is absent from the crate
sources).  The variant set is the one matched by the executor plus the
variants of the sibling nyar-vm instruction.rs enum, which the executor
sends to its catch-all arm. -/
inductive Instr where
  | PushConstant (value : NyarValue)
  | PushVariable (name : Str)
  | StoreVariable (name : Str)
  | GetIndex (index : Nat)
  | SetIndex (index : Nat)
  | GetProperty (name : Str)
  | SetProperty (name : Str)
  | Call (argument_count : Nat)
  | CreateFunction (name : Option Str) (parameter_count : Nat) (body_size : Nat)
  | Jump (offset : Int)
  | JumpIfFalse (offset : Int)
  | Return
  | CreateCoroutine
  | ResumeCoroutine
  | YieldCoroutine (value_count : Nat)
  | RaiseEffect (name : Str) (argument_count : Nat)
  | HandleEffect (name : Str)
  | ResumeEffect (value_count : Nat)
  | Halt
  | LoopStart (label : Option Str)
  | LoopEnd (label : Option Str)
  | Break (label : Option Str)
  | Continue (label : Option Str)
  | MatchStart
  | MatchCase (fall_through : Bool)
  | MatchEnd
  | Await
  | BlockOn
  | FireThenIgnore

end

/-- NyarValue::type_name. -/
def NyarValue.type_name : NyarValue → Str
  | .Null => "null"
  | .Boolean _ => "boolean"
  | .Integer _ => "bigint"
  | .String _ => "string"
  | .Vector _ => "array"
  | .Object _ => "object"
  | .Function _ => "function"
  | .Class _ => "class"
  | .Trait _ => "trait"
  | .Enum _ => "enum"
  | .Coroutine _ => "coroutine"
  | .Handler _ => "handler"

/-- Field projections of NyarFunction (a mutual inductive cannot be a Lean
structure). -/
def NyarFunction.parameters : NyarFunction → List Str
  | .mk _ p _ _ => p

/-- Body projection of NyarFunction. -/
def NyarFunction.body : NyarFunction → List Instr
  | .mk _ _ b _ => b

/-- nyar-lir heap/mod.rs: struct GcValue. -/
structure GcValue where
  dead : Bool
  value : NyarValue

/-- nyar-lir heap/mod.rs: struct Heap.  The roots HashSet is modelled as a
list of indices. -/
structure Heap where
  roots : List Nat
  memory : List GcValue
  free_indices : List Nat

/-- Heap::new. -/
def Heap.new : Heap := { roots := [], memory := [], free_indices := [] }

/-- Heap::allocate of nyar-lir heap/mod.rs, translated literally.  The
free-list branch reuses the popped index (Vec::pop takes the last entry);
the append branch pushes the fresh cell at the end of memory but builds the
returned handle with index self.roots.len(), exactly as the source does. -/
def Heap.allocate (h : Heap) (value : NyarValue) : Heap × Nat :=
  let cell : GcValue := { dead := false, value := value }
  match vecPop h.free_indices with
  | some (index, rest) =>
    ({ h with free_indices := rest, memory := h.memory.set index cell }, index)
  | none =>
    ({ h with memory := h.memory ++ [cell] }, h.roots.length)

/-- Heap::view_ref of nyar-lir heap/mod.rs: a dead cell and an out-of-range
index both give use_after_free. -/
def Heap.view_ref (h : Heap) (index : Nat) : Except NyarError NyarValue :=
  match h.memory.get? index with
  | some s => if s.dead then .error (.UseAfterFree index) else .ok s.value
  | none => .error (.UseAfterFree index)

end NyarLir

namespace NyarMod

open NyarLir

/-- vm/mod.rs: enum VmState. -/
inductive VmState where
  | Initial
  | Running
  | Suspended
  | Completed
  | Failed (e : NyarError)

/-- vm/memory_manager.rs: struct MemoryManager. -/
structure MemoryManager where
  heap : NyarLir.Heap

/-- MemoryManager::new. -/
def MemoryManager.new : MemoryManager := { heap := Heap.new }

/-- MemoryManager::allocate. -/
def MemoryManager.allocate (m : MemoryManager) (value : NyarValue) :
    MemoryManager × Nat :=
  let (h, g) := m.heap.allocate value
  ({ heap := h }, g)

/-- vm/environment.rs: struct Environment.  NyarObject scope maps are
association lists; the source's new() makes the global environment and the
first stack entry two Gc clones of one empty map, modelled as the map
itself (define_global, the only operation that distinguishes them, is not
exercised by any claim). -/
structure Environment where
  environments : List (List (Str × Nat))
  global_environment : List (Str × Nat)

/-- Environment::new. -/
def Environment.new : Environment :=
  { environments := [[]], global_environment := [] }

/-- Environment::get_variable: walk the scope chain from the innermost
(last) entry outwards. -/
def getVariableRev (name : Str) : List (List (Str × Nat)) → Option Nat
  | [] => none
  | env :: rest =>
    match mapGet env name with
    | some value => some value
    | none => getVariableRev name rest

/-- Environment::get_variable. -/
def Environment.get_variable (e : Environment) (name : Str) : Option Nat :=
  getVariableRev name e.environments.reverse

/-- Environment::set_variable: insert into the current (last) scope, if any;
enclosing scopes are never consulted. -/
def Environment.set_variable (e : Environment) (name : Str) (value : Nat) :
    Environment :=
  match vecPop e.environments with
  | none => e
  | some (current_env, rest) =>
    { e with environments := vecPush rest (mapInsert current_env name value) }

/-- Environment::enter_scope. -/
def Environment.enter_scope (e : Environment) : Environment :=
  { e with environments := vecPush e.environments [] }

/-- Environment::exit_scope. -/
def Environment.exit_scope (e : Environment) : Except NyarError Environment :=
  if e.environments.length ≤ 1 then
    .error (.Custom "cannot exit the global scope")
  else
    .ok { e with environments := e.environments.dropLast }

/-- vm/coroutine.rs: struct CoroutineManager. -/
structure CoroutineManager where
  active_coroutines : List Nat

/-- vm/effect_handler.rs: struct EffectHandler (renamed to avoid clashing
with the NyarHandler record). -/
structure EffectHandlerMgr where
  registered_handlers : List (Str × Nat)

/-- EffectHandler::find_handler: Iterator::position returns the index of
the FIRST matching entry, that is the earliest-registered (outermost)
handler for the name. -/
def findHandlerPos (name : Str) : List (Str × Nat) → Option Nat
  | [] => none
  | (handler_name, _) :: rest =>
    if handler_name = name then some 0
    else
      match findHandlerPos name rest with
      | some i => some (i + 1)
      | none => none

/-- EffectHandler::find_handler. -/
def EffectHandlerMgr.find_handler (m : EffectHandlerMgr) (name : Str) :
    Option Nat :=
  findHandlerPos name m.registered_handlers

/-- vm/mod.rs: struct VirtualMachine (the stateless instruction_executor
and value_handler units carry no data and are omitted; the other components
are embedded by value). -/
structure VirtualMachine where
  memory_manager : MemoryManager
  environment : Environment
  coroutine_manager : CoroutineManager
  effect_handler : EffectHandlerMgr
  state : VmState
  value_stack : List Nat
  instruction_pointer : Nat
  max_stack_depth : Nat
  max_call_depth : Nat

/-- VirtualMachine::new of vm/mod.rs. -/
def VirtualMachine.new : VirtualMachine :=
  { memory_manager := MemoryManager.new
    environment := Environment.new
    coroutine_manager := { active_coroutines := [] }
    effect_handler := { registered_handlers := [] }
    state := .Initial
    value_stack := []
    instruction_pointer := 0
    max_stack_depth := 1024
    max_call_depth := 128 }

/-- The dereference written `&*target` in the executor (no heap argument
and no error path in the source, whose Gc lacks the impl); it reads the
cell at the handle's index.  An out-of-range handle, unreachable in the
claims, reads as Null. -/
def starDeref (h : NyarLir.Heap) (g : Nat) : NyarValue :=
  match h.memory.get? g with
  | some s => s.value
  | none => NyarValue.Null

/-- The mutation written `&mut *target.as_mut()` in the executor: replace
the value stored in the cell at the handle's index. -/
def starWrite (h : NyarLir.Heap) (g : Nat) (v : NyarValue) : NyarLir.Heap :=
  match h.memory.get? g with
  | some s => { h with memory := h.memory.set g { s with value := v } }
  | none => h

/-- Allocate through the VM's memory manager. -/
def vmAllocate (vm : VirtualMachine) (v : NyarValue) : VirtualMachine × Nat :=
  let (m, g) := vm.memory_manager.allocate v
  ({ vm with memory_manager := m }, g)

/-- CoroutineManager::create_coroutine.  The source builds the record with
Gc::new(func.clone()) for the function handle; Gc::new does not exist in
the heap crate and is modelled as an allocation of the cloned function. -/
def create_coroutine (vm : VirtualMachine) : VirtualMachine × Option NyarError :=
  match vecPop vm.value_stack with
  | none => (vm, some (.Custom "stack empty, cannot create coroutine"))
  | some (function, rest) =>
    let vm := { vm with value_stack := rest }
    match starDeref vm.memory_manager.heap function with
    | .Function func =>
      let (vm, gf) := vmAllocate vm (.Function func)
      let coroutine : NyarCoroutine :=
        { state := .Initial, function := gf, instruction_pointer := 0,
          value_stack := [], call_stack := [], environment_stack := [],
          effect_handlers := [] }
      let (vm, coroutine_gc) := vmAllocate vm (.Coroutine coroutine)
      let vm := { vm with value_stack := vecPush vm.value_stack coroutine_gc }
      match starDeref vm.memory_manager.heap coroutine_gc with
      | .Coroutine _ =>
        ({ vm with coroutine_manager :=
            { active_coroutines :=
                vecPush vm.coroutine_manager.active_coroutines coroutine_gc } }, none)
      | _ => (vm, none)
    | other => (vm, some (.Custom ("type error: " ++ other.type_name ++ " is not a function")))

/-- CoroutineManager::resume_coroutine of vm/coroutine.rs.  Initial and
Suspended coroutines are marked Running (the context switch around that is
a stubbed save-then-restore with no work in between); a Completed coroutine
pushes its stored result, or a fresh Null, onto the caller's stack and
succeeds; a Failed coroutine gives a custom error. -/
def resume_coroutine (vm : VirtualMachine) : VirtualMachine × Option NyarError :=
  match vecPop vm.value_stack with
  | none => (vm, some (.Custom "stack empty, cannot resume coroutine"))
  | some (coroutine_value, rest) =>
    let vm := { vm with value_stack := rest }
    match starDeref vm.memory_manager.heap coroutine_value with
    | .Coroutine coroutine =>
      match coroutine.state with
      | .Initial =>
        let heap2 := starWrite vm.memory_manager.heap coroutine_value
          (.Coroutine { coroutine with state := .Running })
        ({ vm with memory_manager := { heap := heap2 } }, none)
      | .Suspended =>
        let heap2 := starWrite vm.memory_manager.heap coroutine_value
          (.Coroutine { coroutine with state := .Running })
        ({ vm with memory_manager := { heap := heap2 } }, none)
      | .Completed =>
        match vecLast coroutine.value_stack with
        | some result =>
          ({ vm with value_stack := vecPush vm.value_stack result }, none)
        | none =>
          let (vm, g) := vmAllocate vm .Null
          ({ vm with value_stack := vecPush vm.value_stack g }, none)
      | .Failed => (vm, some (.Custom "coroutine execution failed"))
      | .Running => (vm, some (.Custom "coroutine state error"))
    | other =>
      (vm, some (.Custom ("type error: " ++ other.type_name ++ " is not a coroutine")))

/-- CoroutineManager::yield_coroutine: pop the yielded values (the source
pops one by one, so running out leaves the stack empty), then push them
back in original order; the state bookkeeping is stubbed in the source. -/
def yield_coroutine (vm : VirtualMachine) (value_count : Nat) :
    VirtualMachine × Option NyarError :=
  match vecPopN vm.value_stack value_count with
  | none => ({ vm with value_stack := [] },
      some (.Custom "stack empty, cannot take yield value"))
  | some (popped, rest) =>
    let yield_values := popped.reverse
    ({ vm with value_stack := yield_values.foldl vecPush rest }, none)

/-- EffectHandler::raise_effect of vm/effect_handler.rs: resolve the
handler by find_handler (first-registered match), pop the arguments, record
a resume point of ip + 1, build and allocate the NyarHandler record; the
handler function call itself is stubbed in the source. -/
def raise_effect (vm : VirtualMachine) (name : Str) (argument_count : Nat) :
    VirtualMachine × Option NyarError :=
  match vm.effect_handler.find_handler name with
  | none => (vm, some (.Custom ("unhandled effect: " ++ name)))
  | some handler_index =>
    match vecPopN vm.value_stack argument_count with
    | none => ({ vm with value_stack := [] },
        some (.Custom "stack empty, cannot take effect argument"))
    | some (popped, rest) =>
      let _args := popped.reverse
      let vm := { vm with value_stack := rest }
      let resume_point := vm.instruction_pointer + 1
      let handler_func :=
        (vm.effect_handler.registered_handlers.getD handler_index ("", 0)).2
      let handler : NyarHandler :=
        { name := name, handler := handler_func, resume_point := some resume_point }
      let (vm, _handler_gc) := vmAllocate vm (.Handler handler)
      (vm, none)

/-- EffectHandler::handle_effect: pop the handler function and register it
under the effect name (Gc::new on the cloned function modelled as an
allocation). -/
def handle_effect (vm : VirtualMachine) (name : Str) :
    VirtualMachine × Option NyarError :=
  match vecPop vm.value_stack with
  | none => (vm, some (.Custom "stack empty, cannot take effect handler"))
  | some (handler_func, rest) =>
    let vm := { vm with value_stack := rest }
    match starDeref vm.memory_manager.heap handler_func with
    | .Function func =>
      let (vm, g) := vmAllocate vm (.Function func)
      ({ vm with effect_handler :=
          { registered_handlers :=
              vecPush vm.effect_handler.registered_handlers (name, g) } }, none)
    | other =>
      (vm, some (.Custom ("type error: " ++ other.type_name ++
        " is not a function, cannot be an effect handler")))

/-- EffectHandler::resume_effect: pop the resume values, then pop the
handler object itself from the value stack and jump to its resume point. -/
def resume_effect (vm : VirtualMachine) (value_count : Nat) :
    VirtualMachine × Option NyarError :=
  match vecPopN vm.value_stack value_count with
  | none => ({ vm with value_stack := [] },
      some (.Custom "stack empty, cannot take resume value"))
  | some (popped, rest) =>
    let resume_values := popped.reverse
    let vm := { vm with value_stack := rest }
    match vecPop vm.value_stack with
    | none => (vm, some (.Custom "stack empty, cannot take effect handler"))
    | some (handler, rest2) =>
      let vm := { vm with value_stack := rest2 }
      match starDeref vm.memory_manager.heap handler with
      | .Handler h =>
        match h.resume_point with
        | some resume_point =>
          ({ vm with instruction_pointer := resume_point,
                     value_stack := resume_values.foldl vecPush vm.value_stack }, none)
        | none => (vm, some (.Custom "effect handler has no resume point"))
      | other =>
        (vm, some (.Custom ("type error: " ++ other.type_name ++
          " is not an effect handler")))

/-- InstructionExecutor::handle_function_call (a stub in the source: it
pops the arguments and the callee, checks that the callee is a function,
builds the parameter environment, and drops it without running the body). -/
def handle_function_call (vm : VirtualMachine) (argument_count : Nat) :
    VirtualMachine × Option NyarError :=
  if vm.value_stack.length < argument_count + 1 then
    (vm, some (.Custom "not enough arguments on the stack"))
  else
    match vecPopN vm.value_stack argument_count with
    | none => (vm, some (.Custom "not enough arguments on the stack"))
    | some (popped, rest1) =>
      let _args := popped.reverse
      match vecPop rest1 with
      | none => (vm, some (.Custom "not enough arguments on the stack"))
      | some (function, rest2) =>
        let vm := { vm with value_stack := rest2 }
        match starDeref vm.memory_manager.heap function with
        | .Function _ => (vm, none)
        | other =>
          (vm, some (.Custom ("type error: " ++ other.type_name ++
            " is not callable")))

/-- InstructionExecutor::execute_instruction of
projects/nyar-vm/src/vm/instruction_executor.rs.  Jump targets subtract one
to compensate the loop's automatic increment; JumpIfFalse jumps only on
Boolean(false); Halt only sets the state to Completed. -/
def executeInstr (vm : VirtualMachine) (instruction : Instr) :
    VirtualMachine × Option NyarError :=
  match instruction with
  | .PushConstant value =>
    let (vm, value_gc) := vmAllocate vm value
    ({ vm with value_stack := vecPush vm.value_stack value_gc }, none)
  | .PushVariable name =>
    match vm.environment.get_variable name with
    | some value => ({ vm with value_stack := vecPush vm.value_stack value }, none)
    | none => (vm, some (.Custom ("undefined variable: " ++ name)))
  | .StoreVariable name =>
    match vecPop vm.value_stack with
    | none => (vm, some (.Custom "stack empty, cannot store variable"))
    | some (value, rest) =>
      ({ vm with value_stack := rest,
                 environment := vm.environment.set_variable name value }, none)
  | .GetIndex index =>
    match vecPop vm.value_stack with
    | none => (vm, some (.Custom "stack empty, cannot take index"))
    | some (target, rest) =>
      let vm := { vm with value_stack := rest }
      match starDeref vm.memory_manager.heap target with
      | .Vector list =>
        if h : index < list.length then
          ({ vm with value_stack := vecPush vm.value_stack (list.get ⟨index, h⟩) }, none)
        else (vm, some (.Custom "index out of range"))
      | other =>
        (vm, some (.Custom ("type error: " ++ other.type_name ++
          " does not support indexing")))
  | .SetIndex index =>
    match vecPop vm.value_stack with
    | none => (vm, some (.Custom "stack empty, cannot take index value"))
    | some (value, rest1) =>
      match vecPop rest1 with
      | none => ({ vm with value_stack := rest1 },
          some (.Custom "stack empty, cannot take target object"))
      | some (target, rest2) =>
        let vm := { vm with value_stack := rest2 }
        match starDeref vm.memory_manager.heap target with
        | .Vector list =>
          if index < list.length then
            let heap2 := starWrite vm.memory_manager.heap target
              (.Vector (list.set index value))
            ({ vm with memory_manager := { heap := heap2 } }, none)
          else (vm, some (.Custom "index out of range"))
        | other =>
          (vm, some (.Custom ("type error: " ++ other.type_name ++
            " does not support indexing")))
  | .GetProperty name =>
    match vecPop vm.value_stack with
    | none => (vm, some (.Custom "stack empty, cannot take property"))
    | some (target, rest) =>
      let vm := { vm with value_stack := rest }
      match starDeref vm.memory_manager.heap target with
      | .Object obj =>
        match mapGet obj name with
        | some value =>
          ({ vm with value_stack := vecPush vm.value_stack value }, none)
        | none => (vm, some (.Custom ("undefined property: " ++ name)))
      | other =>
        (vm, some (.Custom ("type error: " ++ other.type_name ++
          " does not support property access")))
  | .SetProperty name =>
    match vecPop vm.value_stack with
    | none => (vm, some (.Custom "stack empty, cannot take property value"))
    | some (value, rest1) =>
      match vecPop rest1 with
      | none => ({ vm with value_stack := rest1 },
          some (.Custom "stack empty, cannot take target object"))
      | some (target, rest2) =>
        let vm := { vm with value_stack := rest2 }
        match starDeref vm.memory_manager.heap target with
        | .Object obj =>
          let heap2 := starWrite vm.memory_manager.heap target
            (.Object (mapInsert obj name value))
          ({ vm with memory_manager := { heap := heap2 } }, none)
        | other =>
          (vm, some (.Custom ("type error: " ++ other.type_name ++
            " does not support property access")))
  | .Call argument_count => handle_function_call vm argument_count
  | .CreateFunction _ _ _ => (vm, none)
  | .Jump offset =>
    let new_ip := castUsize ((vm.instruction_pointer : Int) + offset)
    ({ vm with instruction_pointer := new_ip - 1 }, none)
  | .JumpIfFalse offset =>
    match vecPop vm.value_stack with
    | none => (vm, some (.Custom "stack empty, cannot take condition"))
    | some (condition, rest) =>
      let vm := { vm with value_stack := rest }
      match starDeref vm.memory_manager.heap condition with
      | .Boolean false =>
        let new_ip := castUsize ((vm.instruction_pointer : Int) + offset)
        ({ vm with instruction_pointer := new_ip - 1 }, none)
      | _ => (vm, none)
  | .Return => (vm, none)
  | .CreateCoroutine => create_coroutine vm
  | .ResumeCoroutine => resume_coroutine vm
  | .YieldCoroutine value_count => yield_coroutine vm value_count
  | .RaiseEffect name argument_count => raise_effect vm name argument_count
  | .HandleEffect name => handle_effect vm name
  | .ResumeEffect value_count => resume_effect vm value_count
  | .Halt => ({ vm with state := .Completed }, none)
  | _ => (vm, some (.Custom "unimplemented instruction"))

/-- The while loop of VirtualMachine::execute in vm/mod.rs: the state set
by an instruction (Halt included) does not stop the loop, which only
watches the instruction pointer against the program length and increments
the pointer after every instruction. -/
def executeLoop (instructions : List Instr) : Nat → VirtualMachine →
    VirtualMachine × Option NyarError
  | 0, vm => (vm, some (.Custom "out of fuel"))
  | f + 1, vm =>
    if h : vm.instruction_pointer < instructions.length then
      match executeInstr vm (instructions.get ⟨vm.instruction_pointer, h⟩) with
      | (vm2, some e) => (vm2, some e)
      | (vm2, none) =>
        executeLoop instructions f
          { vm2 with instruction_pointer := vm2.instruction_pointer + 1 }
    else (vm, none)

/-- VirtualMachine::execute of vm/mod.rs. -/
def VirtualMachine.execute (fuel : Nat) (vm0 : VirtualMachine)
    (instructions : List Instr) : VirtualMachine × Except NyarError Nat :=
  let vm := { vm0 with state := .Running, instruction_pointer := 0 }
  match executeLoop instructions fuel vm with
  | (vm2, some e) => ({ vm2 with state := .Failed e }, .error e)
  | (vm2, none) =>
    let vm3 := { vm2 with state := .Completed }
    match vecPop vm3.value_stack with
    | some (v, rest) => ({ vm3 with value_stack := rest }, .ok v)
    | none =>
      let (vm4, g) := vmAllocate vm3 .Null
      (vm4, .ok g)

end NyarMod

namespace NyarGc

/-- projects/nyar-gc/src/values/mod.rs: enum Value.  A Gc<Value> is a bare
pointer index, so List holds the indices of its children. -/
inductive Value where
  | Null
  | Number (n : Int)
  | String (s : Str)
  | List (children : List Nat)
deriving DecidableEq, Repr

/-- projects/nyar-gc/src/heap/mod.rs: enum GcState. -/
inductive GcState where
  | Unmarked
  | Marked
deriving DecidableEq, Repr

/-- heap/mod.rs: struct GcCell. -/
structure GcCell where
  value : Value
  state : GcState
  forwarding_address : Option Nat
deriving DecidableEq, Repr

/-- heap/mod.rs: struct Heap.  The roots HashSet is modelled as a list of
indices (iteration order fixed by the list; only membership matters to the
claims). -/
structure Heap where
  roots : List Nat
  memory : List GcCell
deriving DecidableEq, Repr

/-- Modelled from the spec: Value::gc_trace, whose definition is absent
from the crate sources (heap/mod.rs calls it on every processed cell).
Per the spec's tracing table, a Vector (here List) traces each element
handle and every other variant traces nothing. -/
def Value.gc_trace : Value → NatList
  | .List children => children
  | _ => []

/-- Heap::alloc: always appends at the end; optionally pins the new index
as a root. -/
def Heap.alloc (h : Heap) (value : Value) (root : Bool) : Heap × Nat :=
  let index := h.memory.length
  let h2 := { h with memory := h.memory ++
    [{ value := value, state := .Unmarked, forwarding_address := none }] }
  if root then ({ h2 with roots := h2.roots ++ [index] }, index)
  else (h2, index)

/-- Heap::get_value. -/
def getValueMem (mem : List GcCell) (index : Nat) : Option Value :=
  (mem.get? index).map (fun c => c.value)

/-- Marked-state test of the cell at an index. -/
def isMarked (mem : List GcCell) (index : Nat) : Bool :=
  match mem.get? index with
  | some c => c.state = .Marked
  | none => false

/-- Set the state of the cell at an index to Marked (identity when the
index is out of range; callers control the bounds behaviour). -/
def setCellMarked (mem : List GcCell) (i : Nat) : List GcCell :=
  match mem.get? i with
  | some c => mem.set i { c with state := .Marked }
  | none => mem

/-- In-bounds marking write used when seeding roots: memory.get_mut, so an
out-of-range root is skipped (the source prints a diagnostic). -/
def seedRoot (acc : List GcCell × List Nat) (r : Nat) : List GcCell × List Nat :=
  if r < acc.1.length then (setCellMarked acc.1 r, acc.2 ++ [r])
  else acc

/-- Marking write of the worklist loop: the source indexes
self.memory[child] directly and would panic out of bounds, modelled as
none. -/
def markChildAt (mem : List GcCell) (child : Nat) : Option (List GcCell) :=
  if child < mem.length then some (setCellMarked mem child)
  else none

/-- Mark every child in order, failing on the first out-of-bounds child. -/
def markChildren (mem : List GcCell) : List Nat → Option (List GcCell)
  | [] => some mem
  | c :: cs =>
    match markChildAt mem c with
    | some mem2 => markChildren mem2 cs
    | none => none

/-- The state of the mark worklist loop: the evolving cell states, the
growing worklist and the cursor live_index. -/
structure MarkState where
  memory : List GcCell
  worklist : List Nat
  live_index : Nat
deriving DecidableEq, Repr

/-- The children an index contributes to the mark worklist: the traced
handles of the cell's value (the children_target_indices binding of the
source). -/
def childrenOf (mem : List GcCell) (i : Nat) : List Nat :=
  match getValueMem mem i with
  | some v => v.gc_trace
  | none => []

/-- One iteration of the worklist loop of Heap::collect (step 2.2): take
the entry at live_index, advance the cursor, trace the cell's children and
mark-and-push every one of them unconditionally (the source performs no
already-marked check before enqueueing). -/
def markStep (s : MarkState) : Option MarkState :=
  let current_obj_index := s.worklist.getD s.live_index 0
  let children := childrenOf s.memory current_obj_index
  match markChildren s.memory children with
  | some mem2 =>
    some { memory := mem2, worklist := s.worklist ++ children,
           live_index := s.live_index + 1 }
  | none => none

/-- The worklist loop itself, on fuel: none when the fuel runs out with the
guard live_index < worklist.len() still true, or when a child write would
panic. -/
def markLoop : Nat → MarkState → Option MarkState
  | 0, s => if s.live_index < s.worklist.length then none else some s
  | fuel + 1, s =>
    if s.live_index < s.worklist.length then
      match markStep s with
      | some s2 => markLoop fuel s2
      | none => none
    else some s

/-- Steps 1, 2.1 and 2.2 of Heap::collect: reset every cell's state and
forwarding address, seed the worklist with the in-bounds roots, and run the
worklist loop. -/
def markPhase (fuel : Nat) (h : Heap) : Option MarkState :=
  let mem0 := h.memory.map (fun c =>
    { c with state := .Unmarked, forwarding_address := none })
  let seeded := h.roots.foldl seedRoot (mem0, [])
  markLoop fuel { memory := seeded.1, worklist := seeded.2, live_index := 0 }

/-- The forwarding address that step 3 of Heap::collect assigns to a marked
cell: walking cells in index order and handing out sequential new indices
gives each marked cell the count of marked cells below it. -/
def countMarkedBelow (mem : List GcCell) (i : Nat) : Nat :=
  ((List.range i).filter (fun j => isMarked mem j)).length

/-- Step 4a/4b child rewriting: a child handle pointing at an in-bounds
marked cell is replaced by that cell's forwarding address; otherwise the
old index is kept (a dangling pointer, as the source comments). -/
def rewriteChild (mem : List GcCell) (c : Nat) : Nat :=
  if c < mem.length ∧ isMarked mem c then countMarkedBelow mem c else c

/-- Step 4 value rewriting: only List values carry pointers. -/
def rewriteValue (mem : List GcCell) : Value → Value
  | .List children => .List (children.map (rewriteChild mem))
  | v => v

/-- Root rewriting: a root surviving in a marked in-bounds cell forwards to
its new index; any other root is dropped. -/
def newRoots (mem : List GcCell) (roots : List Nat) : List Nat :=
  roots.filterMap (fun r =>
    if r < mem.length ∧ isMarked mem r then some (countMarkedBelow mem r)
    else none)

/-- Step 5 compaction: every marked cell moves to its forwarding address
with its List children rewritten and its state reset.  Since forwarding
addresses are assigned in index order, the compacted store is the marked
cells in index order. -/
def compactMem (mem : List GcCell) : List GcCell :=
  ((List.range mem.length).filter (fun i => isMarked mem i)).map (fun i =>
    { value := rewriteValue mem ((getValueMem mem i).getD .Null),
      state := .Unmarked, forwarding_address := none })

/-- Heap::collect of nyar-gc heap/mod.rs, on fuel for the worklist loop:
mark from the roots, then rewrite pointers and roots through the forwarding
table and compact.  When nothing is marked the memory and roots both come
out empty (the explicit else branch of the source). -/
def collect (fuel : Nat) (h : Heap) : Option Heap :=
  match markPhase fuel h with
  | none => none
  | some s =>
    some { roots := newRoots s.memory h.roots, memory := compactMem s.memory }

/-- Structural equality of the value graphs hanging off two cells, compared
to depth d: constants must agree, lists must have the same length and
structurally equal children to depth d - 1.  Equality at every depth is the
structural equality of the (possibly cyclic) graphs. -/
def structEq (m1 m2 : List GcCell) : Nat → Nat → Nat → Bool
  | 0, _, _ => true
  | d + 1, i, j =>
    match getValueMem m1 i, getValueMem m2 j with
    | some .Null, some .Null => true
    | some (.Number a), some (.Number b) => a == b
    | some (.String s), some (.String t) => s == t
    | some (.List cs), some (.List ds) =>
      cs.length == ds.length &&
        (cs.zip ds).all (fun p => structEq m1 m2 d p.1 p.2)
    | _, _ => false

/-- The new index of a pinned root after collect: the forwarding address
computed from the final mark state. -/
def rootForward (fuel : Nat) (h : Heap) (r : Nat) : Option Nat :=
  (markPhase fuel h).map (fun s => countMarkedBelow s.memory r)

/-- The two-cell heap of the cyclic-vectors scenario: two Lists each
holding the handle of the other, the first pinned as a root. -/
def cyclicHeap : Heap :=
  { roots := [0],
    memory :=
      [{ value := .List [1], state := .Unmarked, forwarding_address := none },
       { value := .List [0], state := .Unmarked, forwarding_address := none }] }

/-- All children of the cell at an index are in bounds and marked. -/
def childrenOk (mem : List GcCell) (i : Nat) : Prop :=
  ∀ c ∈ childrenOf mem i, c < mem.length ∧ isMarked mem c = true

/-- The invariant of the mark worklist loop: processed entries have had
their children marked in bounds, every marked cell entered the worklist,
and every worklist entry is a marked in-bounds cell. -/
def MarkInv (s : MarkState) : Prop :=
  (∀ k, k < s.live_index → childrenOk s.memory (s.worklist.getD k 0)) ∧
  (∀ i, isMarked s.memory i = true → i ∈ s.worklist) ∧
  (∀ i ∈ s.worklist, isMarked s.memory i = true ∧ i < s.memory.length)

/-- The invariant that the mark worklist loop maintains on the cyclic
two-cell heap: the two mutually pointing Lists keep their values, the
worklist stays one entry ahead of the cursor (so the loop guard never
fails), and worklist entries stay within the two cells. -/
def CyclicInv (s : MarkState) : Prop :=
  getValueMem s.memory 0 = some (.List [1]) ∧
  getValueMem s.memory 1 = some (.List [0]) ∧
  s.memory.length = 2 ∧
  s.worklist.length = s.live_index + 1 ∧
  (∀ i ∈ s.worklist, i < 2)

/-- A two-cell acyclic fixture heap: a pinned List pointing at a Number. -/
def fixHeap : Heap :=
  { roots := [0],
    memory :=
      [{ value := .List [1], state := .Unmarked, forwarding_address := none },
       { value := .Number 7, state := .Unmarked, forwarding_address := none }] }

end NyarGc

/-!  Concrete fixtures used by witnesses and counterexamples. -/

namespace NyarVM

/-- A virtual machine whose value stack already exceeds its configured
maximum depth. -/
def vmOverflow : VM :=
  { VM.new with max_stack_depth := 0, value_stack := [0] }

/-- The fresh machine as left by running the empty program: the dispatch
loop never runs, so only the program, pointer and state fields move. -/
def vmNewRan : VM :=
  { VM.new with instructions := [], instruction_pointer := 0, state := .Running }

/-- A virtual machine about to resume a Completed coroutine: cell 1 holds
the Value.Coroutine handle value pointing at cell 2, which holds a
Completed coroutine record; cell 0 is the globals map. -/
def vmResumeDone : VM :=
  { VM.new with
    heap :=
      { roots := [],
        free_indices := [],
        memory :=
          [{ value := .value (.Object []), marked := true },
           { value := .value (.Coroutine 2), marked := true },
           { value := .coro
              { state := .Completed, function := 0, instruction_pointer := 0,
                value_stack := [], call_stack := [], environment_stack := [],
                effect_handlers := [] }, marked := true }] },
    value_stack := [1],
    instructions := [.ResumeCoroutine],
    instruction_pointer := 0 }

/-- A virtual machine with two effect handlers for the same name: cell 1
(installed first) and cell 2 (installed last, the innermost). -/
def vmTwoHandlers : VM :=
  { VM.new with
    heap :=
      { roots := [],
        free_indices := [],
        memory :=
          [{ value := .value (.Object []), marked := true },
           { value := .handlerRec { name := "e", handler := 0, resume_point := none },
             marked := true },
           { value := .handlerRec { name := "e", handler := 0, resume_point := none },
             marked := true }] },
    effect_handlers := [1, 2] }

/-- A virtual machine about to run JumpIfFalse on a Null condition: cell 1
holds Null, the program is a JumpIfFalse followed by padding. -/
def vmJumpNull : VM :=
  { VM.new with
    heap :=
      { roots := [],
        free_indices := [],
        memory :=
          [{ value := .value (.Object []), marked := true },
           { value := .value .Null, marked := true }] },
    value_stack := [1],
    instructions := [.JumpIfFalse 1, .Return, .Return, .Return],
    instruction_pointer := 0 }

end NyarVM

namespace NyarMod

open NyarLir

/-- A vm-module-draft machine whose value stack holds a Completed coroutine whose
saved stack holds the handle 1 (cell 1 is an Integer 7). -/
def vmDoneCoroutine : VirtualMachine :=
  { VirtualMachine.new with
    memory_manager :=
      { heap :=
          { roots := [], free_indices := [],
            memory :=
              [{ dead := false, value := .Coroutine
                  { state := .Completed, function := 0, instruction_pointer := 0,
                    value_stack := [1], call_stack := [], environment_stack := [],
                    effect_handlers := [] } },
               { dead := false, value := .Integer 7 }] } },
    value_stack := [0] }

/-- A vm-module-draft machine with two handlers registered for the effect "e":
the function behind handle 5 was installed first (outermost), the one
behind handle 7 last (innermost). -/
def vmTwoRegistered : VirtualMachine :=
  { VirtualMachine.new with
    effect_handler := { registered_handlers := [("e", 5), ("e", 7)] } }

/-- A vm-module-draft machine whose value stack holds a handle to a Null cell. -/
def vmNullCondition : VirtualMachine :=
  { VirtualMachine.new with
    memory_manager :=
      { heap := { roots := [], free_indices := [],
                  memory := [{ dead := false, value := .Null }] } },
    value_stack := [0] }

/-- An environment whose enclosing scope binds x and whose innermost scope
is empty. -/
def envShadow : Environment :=
  { environments := [[("x", 1)], []], global_environment := [] }

/-- The two-instruction program of the Halt counterexample: a Halt followed
by a push. -/
def haltThenPush : List Instr :=
  [Instr.Halt, Instr.PushConstant (NyarValue.Integer 42)]

end NyarMod

namespace NyarLir

/-- A heap holding one live Null cell, with empty root set and free list:
the next allocation appends at index 1 but hands back index
roots.len() = 0. -/
def heapOneCell : Heap :=
  { roots := [], memory := [{ dead := false, value := .Null }], free_indices := [] }

end NyarLir

/-!  Theorems.  Helper lemmas come first, then the claim theorems with
their witnesses and counterexamples. -/

/-- Popping a vector that ends in x yields x and the rest. -/
theorem vecPop_concat {α : Type} (xs : List α) (x : α) :
    vecPop (xs ++ [x]) = some (x, xs) := by
  simp [vecPop, List.reverse_append]

/-- mapInsert establishes the binding it writes. -/
theorem mapGet_mapInsert_self {β : Type} (m : List (String × β)) (k : String)
    (v : β) : mapGet (mapInsert m k v) k = some v := by
  induction m with
  | nil => simp [mapInsert, mapGet]
  | cons p rest ih =>
    obtain ⟨k0, v0⟩ := p
    by_cases hk : k0 = k
    · simp [mapInsert, hk, mapGet]
    · simp [mapInsert, hk, mapGet, ih]

namespace NyarVM

/-- C8: during execution of any program, an interpreter step of vm.rs fails
with StackOverflow — returned as an error value with the machine unchanged,
so no part of that step's instruction runs — whenever the value stack
length exceeds max_stack_depth or the call stack length exceeds
max_call_depth. -/
theorem step_fails_with_stack_overflow (fuel : Nat) (vm : VM)
    (h : vm.max_stack_depth < vm.value_stack.length ∨
         vm.max_call_depth < vm.call_stack.length) :
    executeInstruction fuel vm = (vm, some VmError.StackOverflow) := by
  rcases h with h1 | h2
  · rw [executeInstruction.eq_def]
    simp [h1]
  · rw [executeInstruction.eq_def]
    by_cases h1 : vm.value_stack.length > vm.max_stack_depth
    · simp [h1]
    · simp [h1, h2]

/-- Witness for C8 at a machine whose single stack entry exceeds a maximum
depth of zero. -/
theorem step_fails_with_stack_overflow_witness :
    executeInstruction 3 vmOverflow = (vmOverflow, some VmError.StackOverflow) :=
  step_fails_with_stack_overflow 3 vmOverflow (Or.inl (by decide))

end NyarVM

namespace NyarLir

/-- C7: evaluation of nyar-lir Heap::allocate at the failing input.  With
one live cell, an empty free list and an empty root set, allocating
Boolean(true) appends the new cell at index 1 but returns a handle whose
index is roots.len() = 0, so the returned handle dereferences to the old
Null value instead of the allocated one. -/
theorem allocate_append_returns_stale_handle :
    (heapOneCell.allocate (.Boolean true)).2 = 0 ∧
    (heapOneCell.allocate (.Boolean true)).1.memory.length = 2 ∧
    (heapOneCell.allocate (.Boolean true)).1.view_ref 0 = .ok .Null ∧
    ((heapOneCell.allocate (.Boolean true)).1.memory.getD 1
        { dead := true, value := .Null }).value = .Boolean true :=
  ⟨rfl, rfl, rfl, rfl⟩

end NyarLir

namespace NyarMod

open NyarLir

/-- C9 (amended): executing Halt transitions the VM state to Completed and
changes nothing else; it does not drop call frames and does not terminate
the dispatch loop. -/
theorem halt_only_sets_completed (vm : VirtualMachine) :
    executeInstr vm .Halt = ({ vm with state := .Completed }, none) := rfl

/-- C9 counterexample: running a program whose Halt is followed by a
PushConstant executes the push after the Halt; execute returns the pushed
Integer 42, proving that instructions located after the Halt ran. -/
theorem execute_runs_past_halt :
    (VirtualMachine.execute 5 VirtualMachine.new haltThenPush).2 = Except.ok 0 ∧
    starDeref
      (VirtualMachine.execute 5 VirtualMachine.new haltThenPush).1.memory_manager.heap
      0 = NyarValue.Integer 42 :=
  ⟨rfl, rfl⟩

/-- C1 counterexample: the CoroutineManager of the vm module draft resumes
a Completed coroutine without any error and pushes the coroutine's stored
result onto the resumer's value stack, instead of failing with a
CoroutineError. -/
theorem resume_completed_coroutine_pushes :
    resume_coroutine vmDoneCoroutine =
      ({ vmDoneCoroutine with value_stack := [1] }, none) := rfl

/-- C2 counterexample: with two handlers registered for the effect name e,
find_handler returns position 0 — the first-installed, outermost handler —
and raise_effect builds the invoked handler record from that outermost
function (handle 5), not from the innermost one (handle 7). -/
theorem find_handler_picks_first_installed :
    vmTwoRegistered.effect_handler.find_handler "e" = some 0 ∧
    (raise_effect vmTwoRegistered "e" 0).1.memory_manager.heap.memory =
      [{ dead := false,
         value := .Handler { name := "e", handler := 5, resume_point := some 1 } }] ∧
    (raise_effect vmTwoRegistered "e" 0).2 = none :=
  ⟨rfl, rfl, rfl⟩

/-- C3 counterexample: Value::is_truthy of value.rs makes Integer 0 falsy,
and the instruction_executor's JumpIfFalse pops a Null condition without
taking the jump (the instruction pointer is unchanged), while the claim
says Integer 0 is truthy and a Null condition takes the jump. -/
theorem bigint_zero_falsy_and_null_does_not_jump :
    NyarVM.Value.is_truthy (NyarVM.Value.BigInt 0) = false ∧
    executeInstr vmNullCondition (Instr.JumpIfFalse 5) =
      ({ vmNullCondition with value_stack := [] }, none) :=
  ⟨rfl, rfl⟩

/-- C6 counterexample: with the enclosing scope binding x to 1 and the
innermost scope empty, set_variable leaves the enclosing binding untouched
and creates a fresh binding in the innermost scope instead of mutating the
nearest enclosing one. -/
theorem set_variable_ignores_enclosing :
    (envShadow.set_variable "x" 2).environments = [[("x", 1)], [("x", 2)]] := rfl

/-- C6 (amended): StoreVariable's Environment::set_variable always writes
the binding into the innermost scope, never consulting enclosing scopes:
the enclosing scopes come out unchanged, the innermost scope gains the
binding, and a subsequent lookup sees the new innermost binding. -/
theorem store_variable_binds_innermost (e : Environment) (name : Str)
    (value : Nat) (h : e.environments ≠ []) :
    (e.set_variable name value).environments =
      e.environments.dropLast ++
        [mapInsert (e.environments.getLast h) name value] ∧
    (e.set_variable name value).get_variable name = some value := by
  obtain ⟨ed, last, hsplit⟩ :
      ∃ ed last, e.environments = ed ++ [last] :=
    ⟨e.environments.dropLast, e.environments.getLast h,
      (List.dropLast_append_getLast h).symm⟩
  have hpop : vecPop e.environments = some (last, ed) := by
    rw [hsplit]; exact vecPop_concat ed last
  have hlast : e.environments.getLast h = last := by
    have := @List.getLast_congr _ e.environments (ed ++ [last]) h
      (by simp) hsplit
    rw [this, List.getLast_append]
    simp
  have hdrop : e.environments.dropLast = ed := by
    rw [hsplit, List.dropLast_concat]
  constructor
  · simp only [Environment.set_variable, hpop, vecPush, hlast, hdrop]
  · simp only [Environment.set_variable, hpop, Environment.get_variable,
      vecPush, hlast, List.reverse_append, List.reverse_cons, List.reverse_nil,
      List.nil_append, List.singleton_append]
    simp [getVariableRev, mapGet_mapInsert_self]

/-- Witness for the amended C6 statement at the shadowing fixture. -/
theorem store_variable_binds_innermost_witness :
    (envShadow.set_variable "x" 2).environments =
      envShadow.environments.dropLast ++
        [mapInsert (envShadow.environments.getLast (by decide)) "x" 2] ∧
    (envShadow.set_variable "x" 2).get_variable "x" = some 2 :=
  store_variable_binds_innermost envShadow "x" 2 (by decide)

end NyarMod

namespace NyarVM

/-- C1 (amended): in the vm.rs interpreter, executing ResumeCoroutine on a
coroutine record whose state is Completed or Failed fails with a
CoroutineError; the coroutine handle is popped but no result is pushed onto
the resumer's value stack (the vm module draft instead succeeds on a
Completed coroutine and pushes its stored result, and fails with a generic
custom error on a Failed one). -/
theorem resume_completed_or_failed_fails (f : Nat) (vm : VM) (g c : Gc)
    (rest : List Gc) (co : CoroutineRec)
    (hg1 : ¬ vm.value_stack.length > vm.max_stack_depth)
    (hg2 : ¬ vm.call_stack.length > vm.max_call_depth)
    (hfetch : vm.instructions[vm.instruction_pointer]? = some .ResumeCoroutine)
    (hpop : vecPop vm.value_stack = some (g, rest))
    (hval : derefValue vm.heap g = .ok (.Coroutine c))
    (hco : derefCoroutine vm.heap c = .ok co)
    (hstate : co.state = .Completed ∨ co.state = .Failed) :
    executeInstruction (f + 1) vm =
      ({ vm with instruction_pointer := vm.instruction_pointer + 1,
                 value_stack := rest },
       some (.CoroutineError "Cannot resume completed or failed coroutine")) := by
  rw [executeInstruction.eq_def]
  rcases hstate with hs | hs <;>
    simp [hg1, hg2, hfetch, hpop, hval, hco, hs]

/-- Witness for the amended C1 statement: resuming the Completed coroutine
of the fixture machine errors with the CoroutineError and leaves the value
stack empty. -/
theorem resume_completed_or_failed_fails_witness :
    executeInstruction 4 vmResumeDone =
      ({ vmResumeDone with instruction_pointer := 1, value_stack := [] },
       some (.CoroutineError "Cannot resume completed or failed coroutine")) :=
  resume_completed_or_failed_fails 3 vmResumeDone 1 2 []
    { state := .Completed, function := 0, instruction_pointer := 0,
      value_stack := [], call_stack := [], environment_stack := [],
      effect_handlers := [] }
    (by decide) (by decide) rfl rfl rfl rfl (Or.inl rfl)

/-- A prefix of handlers none of which matches the name is walked past. -/
theorem findHandlerRev_append_no_match (h : Heap) (name : String)
    (l1 l2 : List Gc)
    (hl1 : ∀ g ∈ l1, ∀ r, derefHandler h g = .ok r → r.name ≠ name) :
    findHandlerRev h name (l1 ++ l2) = findHandlerRev h name l2 := by
  induction l1 with
  | nil => simp
  | cons g gs ih =>
    have hg := hl1 g (by simp)
    have hrest : ∀ g2 ∈ gs, ∀ r, derefHandler h g2 = .ok r → r.name ≠ name :=
      fun g2 hg2 => hl1 g2 (by simp [hg2])
    simp only [List.cons_append, findHandlerRev]
    cases hd : derefHandler h g with
    | error e => exact ih hrest
    | ok r =>
      have hne : ¬ r.name = name := hg r hd
      simp only [if_neg hne]
      exact ih hrest

/-- A chain with no matching handler yields UnhandledEffect. -/
theorem findHandlerRev_no_match (h : Heap) (name : String) (l : List Gc)
    (hl : ∀ g ∈ l, ∀ r, derefHandler h g = .ok r → r.name ≠ name) :
    findHandlerRev h name l = .error (.UnhandledEffect name) := by
  induction l with
  | nil => rfl
  | cons g gs ih =>
    have hg := hl g (by simp)
    have hrest : ∀ g2 ∈ gs, ∀ r, derefHandler h g2 = .ok r → r.name ≠ name :=
      fun g2 hg2 => hl g2 (by simp [hg2])
    simp only [findHandlerRev]
    cases hd : derefHandler h g with
    | error e => exact ih hrest
    | ok r =>
      have hne : ¬ r.name = name := hg r hd
      simp only [if_neg hne]
      exact ih hrest

/-- C2 (amended): vm.rs's find_effect_handler resolves a raised effect to
the innermost (most recently installed, not yet popped) handler on the
dynamic chain whose record's effect name equals the raised name, and fails
with UnhandledEffect(name) when no handler on the chain matches (the vm
module draft's find_handler instead returns the first-installed, outermost
match and fails with a generic custom error). -/
theorem find_effect_handler_innermost (vm : VM) (name : String) :
    (∀ (pre post : List Gc) (g : Gc) (r : EffectHandlerRec),
      vm.effect_handlers = pre ++ g :: post →
      derefHandler vm.heap g = .ok r → r.name = name →
      (∀ g2 ∈ post, ∀ r2, derefHandler vm.heap g2 = .ok r2 → r2.name ≠ name) →
      find_effect_handler vm name = .ok g) ∧
    ((∀ g2 ∈ vm.effect_handlers, ∀ r2,
        derefHandler vm.heap g2 = .ok r2 → r2.name ≠ name) →
      find_effect_handler vm name = .error (.UnhandledEffect name)) := by
  constructor
  · intro pre post g r hsplit hg hname hpost
    unfold find_effect_handler
    rw [hsplit]
    have hrev : (pre ++ g :: post).reverse = post.reverse ++ g :: pre.reverse := by
      simp
    rw [hrev]
    rw [findHandlerRev_append_no_match vm.heap name post.reverse (g :: pre.reverse)
      (fun g2 hg2 => hpost g2 (List.mem_reverse.mp hg2))]
    simp [findHandlerRev, hg, hname]
  · intro hnone
    unfold find_effect_handler
    exact findHandlerRev_no_match vm.heap name vm.effect_handlers.reverse
      (fun g2 hg2 => hnone g2 (List.mem_reverse.mp hg2))

/-- Witness for the amended C2 statement: with two handlers named e on the
chain, the innermost (handle 2, installed last) is found. -/
theorem find_effect_handler_innermost_witness :
    find_effect_handler vmTwoHandlers "e" = .ok 2 :=
  (find_effect_handler_innermost vmTwoHandlers "e").1 [1] [] 2
    { name := "e", handler := 0, resume_point := none }
    rfl rfl rfl (by simp)

end NyarVM

/-- The rendered handle text inspected by the String arm of is_truthy is
never empty, whatever the pointed-to string holds. -/
theorem gcDisplayString_not_empty (i : Nat) :
    (NyarVM.gcDisplayString i).isEmpty = false := by
  have h : NyarVM.gcDisplayString i ≠ "" := by
    intro he
    have h2 : (NyarVM.gcDisplayString i).data = "".data := congrArg String.data he
    simp [NyarVM.gcDisplayString, String.data_append] at h2
  cases hb : (NyarVM.gcDisplayString i).isEmpty
  · rfl
  · exact absurd ((String.isEmpty_iff (NyarVM.gcDisplayString i)).mp hb) h

/-- C3 (amended): a Value of value.rs is truthy unless it is Null,
Boolean(false) or Integer 0 — in particular every String is truthy, the
empty one included, because is_truthy inspects the rendered handle text,
which is never empty.  vm.rs's JumpIfFalse pops the condition and takes the
relative jump exactly when the popped value is not truthy, while the
instruction_executor draft pops the condition and takes the jump exactly
when the popped value is Boolean(false): a Null condition does not jump
there. -/
theorem truthiness_and_jump_if_false :
    (∀ v : NyarVM.Value,
      v.is_truthy = false ↔
        (v = .Null ∨ v = .Boolean false ∨ v = .BigInt 0)) ∧
    (∀ (f : Nat) (vm : NyarVM.VM) (offset : Int) (g : NyarVM.Gc)
        (rest : List NyarVM.Gc) (v : NyarVM.Value),
      ¬ vm.value_stack.length > vm.max_stack_depth →
      ¬ vm.call_stack.length > vm.max_call_depth →
      vm.instructions[vm.instruction_pointer]? = some (.JumpIfFalse offset) →
      vecPop vm.value_stack = some (g, rest) →
      NyarVM.derefValue vm.heap g = .ok v →
      castUsize (((vm.instruction_pointer + 1 : Nat) : Int) + offset) <
        vm.instructions.length →
      NyarVM.executeInstruction (f + 1) vm =
        (if v.is_truthy then
          ({ vm with instruction_pointer := vm.instruction_pointer + 1,
                     value_stack := rest }, none)
        else
          ({ vm with
              instruction_pointer := castUsize (((vm.instruction_pointer + 1 : Nat) : Int) + offset),
              value_stack := rest }, none))) ∧
    (∀ (vmA : NyarMod.VirtualMachine) (offset : Int) (g : Nat)
        (rest : List Nat),
      vecPop vmA.value_stack = some (g, rest) →
      NyarMod.starDeref vmA.memory_manager.heap g = .Boolean false →
      NyarMod.executeInstr vmA (.JumpIfFalse offset) =
        ({ vmA with
            value_stack := rest,
            instruction_pointer := castUsize ((vmA.instruction_pointer : Int) + offset) - 1 }, none)) ∧
    (∀ (vmA : NyarMod.VirtualMachine) (offset : Int) (g : Nat)
        (rest : List Nat) (v : NyarLir.NyarValue),
      vecPop vmA.value_stack = some (g, rest) →
      NyarMod.starDeref vmA.memory_manager.heap g = v →
      v ≠ .Boolean false →
      NyarMod.executeInstr vmA (.JumpIfFalse offset) =
        ({ vmA with value_stack := rest }, none)) := by
  refine ⟨?_, ?_, ?_, ?_⟩
  · intro v
    cases v <;> simp [NyarVM.Value.is_truthy, gcDisplayString_not_empty]
  · intro f vm offset g rest v hg1 hg2 hfetch hpop hval htarget
    rw [NyarVM.executeInstruction.eq_def]
    have htarget2 : castUsize ((vm.instruction_pointer : Int) + 1 + offset) <
        vm.instructions.length := by
      have hcast : ((vm.instruction_pointer + 1 : Nat) : Int) =
          (vm.instruction_pointer : Int) + 1 := by push_cast; ring
      rw [hcast] at htarget
      exact htarget
    cases ht : v.is_truthy <;>
      simp [hg1, hg2, hfetch, hpop, hval, ht, htarget2]
  · intro vmA offset g rest hpop hval
    simp [NyarMod.executeInstr, hpop, hval]
  · intro vmA offset g rest v hpop hval hne
    have base :
        NyarMod.executeInstr vmA (.JumpIfFalse offset) =
          (match NyarMod.starDeref vmA.memory_manager.heap g with
            | NyarLir.NyarValue.Boolean false =>
              ({ vmA with
                  value_stack := rest,
                  instruction_pointer := castUsize ((vmA.instruction_pointer : Int) + offset) - 1 }, none)
            | _ => ({ vmA with value_stack := rest }, none)) := by
      simp [NyarMod.executeInstr, hpop]
    rw [hval] at base
    cases v with
    | Boolean b =>
      cases b
      · exact absurd rfl hne
      · exact base
    | Null => exact base
    | Integer n => exact base
    | String s => exact base
    | Vector l => exact base
    | Object d => exact base
    | Function fn => exact base
    | Class n => exact base
    | Trait n => exact base
    | Enum n => exact base
    | Coroutine c => exact base
    | Handler hh => exact base

/-- Witness for the amended C3 statement: vm.rs jumps on a Null condition,
the instruction_executor draft does not. -/
theorem truthiness_and_jump_if_false_witness :
    NyarVM.executeInstruction 3 NyarVM.vmJumpNull =
      ({ NyarVM.vmJumpNull with instruction_pointer := 2, value_stack := [] },
        none) ∧
    NyarMod.executeInstr NyarMod.vmNullCondition (NyarLir.Instr.JumpIfFalse 5) =
      ({ NyarMod.vmNullCondition with value_stack := [] }, none) := by
  constructor
  · have hb := truthiness_and_jump_if_false.2.1 2 NyarVM.vmJumpNull 1 1 []
      NyarVM.Value.Null (by decide) (by decide) (by decide) (by decide)
      rfl (by decide)
    rw [hb]
    decide
  · exact truthiness_and_jump_if_false.2.2.2 NyarMod.vmNullCondition 5 0 []
      NyarLir.NyarValue.Null rfl rfl (by simp)

/-- The element returned by vecPop is a member of the vector. -/
theorem vecPop_mem {α : Type} {l : List α} {x : α} {rest : List α}
    (h : vecPop l = some (x, rest)) : x ∈ l := by
  unfold vecPop at h
  cases hr : l.reverse with
  | nil => rw [hr] at h; exact absurd h (by simp)
  | cons a as =>
    rw [hr] at h
    have hax : a = x := by
      injection h with h1
      injection h1 with h2 h3
    have hmem : x ∈ l.reverse := by
      rw [hr, hax]
      exact List.mem_cons_self x as
    exact List.mem_reverse.mp hmem

namespace NyarVM

/-- A value allocated into the vm.rs heap is immediately dereferenceable
when every free-list index is in bounds. -/
theorem derefValue_allocate (h : Heap) (v : Value)
    (hfree : ∀ i ∈ h.free_indices, i < h.memory.length) :
    derefValue (h.allocate (.value v)).1 (h.allocate (.value v)).2 = .ok v := by
  unfold Heap.allocate
  cases hf : vecPop h.free_indices with
  | none =>
    simp [derefValue, derefCell]
  | some p =>
    obtain ⟨i, rest⟩ := p
    have hi : i < h.memory.length := hfree i (vecPop_mem hf)
    simp [derefValue, derefCell, List.getElem?_set, hi]

end NyarVM

/-- C10: an instruction sequence whose dispatch loop runs to the end
without error and leaves the value stack empty — the empty sequence
included — makes execute return a freshly allocated Null rather than an
error and leaves the VM state Completed.  In the vm.rs interpreter the
returned handle dereferences to Null (given an in-bounds free list); the vm
module draft returns the handle of its own fresh Null allocation with the
state likewise Completed. -/
theorem execute_empty_stack_returns_fresh_null :
    (∀ (fuel : Nat) (vm0 vm1 : NyarVM.VM) (ins : List NyarVM.Instruction),
      NyarVM.executeLoop fuel
          { vm0 with instructions := ins, instruction_pointer := 0,
                     state := .Running } = (vm1, none) →
      vm1.value_stack = [] →
      (∀ i ∈ vm1.heap.free_indices, i < vm1.heap.memory.length) →
      NyarVM.VM.execute fuel vm0 ins =
        ({ vm1 with state := .Completed,
                    heap := (vm1.heap.allocate (.value .Null)).1 },
         .ok (vm1.heap.allocate (.value .Null)).2) ∧
      NyarVM.derefValue (vm1.heap.allocate (.value .Null)).1
        (vm1.heap.allocate (.value .Null)).2 = .ok .Null) ∧
    (∀ (fuel : Nat) (vm0 vm1 : NyarMod.VirtualMachine) (ins : List NyarLir.Instr),
      NyarMod.executeLoop ins fuel
          { vm0 with state := .Running, instruction_pointer := 0 } = (vm1, none) →
      vm1.value_stack = [] →
      NyarMod.VirtualMachine.execute fuel vm0 ins =
        ((NyarMod.vmAllocate { vm1 with state := .Completed } .Null).1,
         .ok (NyarMod.vmAllocate { vm1 with state := .Completed } .Null).2) ∧
      (NyarMod.vmAllocate { vm1 with state := .Completed } .Null).1.state =
        NyarMod.VmState.Completed) := by
  constructor
  · intro fuel vm0 vm1 ins hloop hstack hfree
    constructor
    · unfold NyarVM.VM.execute
      simp only [hloop]
      simp [hstack, vecPop]
    · exact NyarVM.derefValue_allocate vm1.heap .Null hfree
  · intro fuel vm0 vm1 ins hloop hstack
    constructor
    · unfold NyarMod.VirtualMachine.execute
      simp only [hloop]
      simp [hstack, vecPop, NyarMod.vmAllocate]
    · rfl

/-- Witness for C10 at the empty program on a fresh machine, for both
interpreter drafts. -/
theorem execute_empty_stack_returns_fresh_null_witness :
    (NyarVM.VM.execute 1 NyarVM.VM.new [] =
      ({ NyarVM.vmNewRan with
          state := .Completed,
          heap := (NyarVM.vmNewRan.heap.allocate (.value .Null)).1 },
       .ok (NyarVM.vmNewRan.heap.allocate (.value .Null)).2) ∧
     NyarVM.derefValue (NyarVM.vmNewRan.heap.allocate (.value .Null)).1
       (NyarVM.vmNewRan.heap.allocate (.value .Null)).2 = .ok .Null) ∧
    (NyarMod.VirtualMachine.execute 1 NyarMod.VirtualMachine.new [] =
      ((NyarMod.vmAllocate
          { { NyarMod.VirtualMachine.new with
              state := .Running, instruction_pointer := 0 } with
              state := .Completed } .Null).1,
       .ok (NyarMod.vmAllocate
          { { NyarMod.VirtualMachine.new with
              state := .Running, instruction_pointer := 0 } with
              state := .Completed } .Null).2) ∧
     (NyarMod.vmAllocate
        { { NyarMod.VirtualMachine.new with
            state := .Running, instruction_pointer := 0 } with
            state := .Completed } .Null).1.state =
       NyarMod.VmState.Completed) :=
  ⟨execute_empty_stack_returns_fresh_null.1 1 NyarVM.VM.new NyarVM.vmNewRan []
      rfl rfl (by decide),
   execute_empty_stack_returns_fresh_null.2 1 NyarMod.VirtualMachine.new
      { NyarMod.VirtualMachine.new with
        state := .Running, instruction_pointer := 0 } [] rfl rfl⟩

namespace NyarGc

/-- Marking a cell changes no value. -/
theorem getValueMem_setCellMarked (mem : List GcCell) (i j : Nat) :
    getValueMem (setCellMarked mem i) j = getValueMem mem j := by
  unfold setCellMarked
  cases h : mem.get? i with
  | none => rfl
  | some c =>
    unfold getValueMem
    rw [List.get?_eq_getElem?] at h
    obtain ⟨hi, _⟩ := List.getElem?_eq_some.mp h
    by_cases hij : i = j
    · subst hij
      rw [List.get?_eq_getElem?, List.get?_eq_getElem?,
        List.getElem?_set_eq_of_lt _ hi, h]
      rfl
    · rw [List.get?_eq_getElem?, List.get?_eq_getElem?,
        List.getElem?_set_ne hij]

/-- Marking a cell changes no length. -/
theorem length_setCellMarked (mem : List GcCell) (i : Nat) :
    (setCellMarked mem i).length = mem.length := by
  unfold setCellMarked
  cases h : mem.get? i with
  | none => rfl
  | some c => exact List.length_set mem i _

/-- Marking a batch of children changes no value and no length. -/
theorem markChildren_preserves {cs : List Nat} :
    ∀ {mem mem2 : List GcCell}, markChildren mem cs = some mem2 →
      (∀ j, getValueMem mem2 j = getValueMem mem j) ∧
      mem2.length = mem.length := by
  induction cs with
  | nil =>
    intro mem mem2 h
    unfold markChildren at h
    cases h
    exact ⟨fun j => rfl, rfl⟩
  | cons c cs ih =>
    intro mem mem2 h
    unfold markChildren markChildAt at h
    by_cases hc : c < mem.length
    · rw [if_pos hc] at h
      obtain ⟨hval, hlen⟩ := ih h
      refine ⟨fun j => ?_, ?_⟩
      · rw [hval j, getValueMem_setCellMarked]
      · rw [hlen, length_setCellMarked]
    · rw [if_neg hc] at h
      cases h

/-- One mark step on the cyclic heap succeeds and preserves the
invariant. -/
theorem cyclicInv_markStep {s : MarkState} (h : CyclicInv s)
    (hlt : s.live_index < s.worklist.length) :
    ∃ s2, markStep s = some s2 ∧ CyclicInv s2 := by
  obtain ⟨h0, h1, hlen, hwl, hmem⟩ := h
  set current := s.worklist.getD s.live_index 0 with hcurdef
  have hcur : current ∈ s.worklist := by
    have hsome : s.worklist.get? s.live_index =
        some (s.worklist.getD s.live_index 0) := by
      rw [List.getD_eq_getElem?_getD, List.get?_eq_getElem?]
      cases hx : s.worklist[s.live_index]? with
      | none =>
        rw [List.getElem?_eq_none_iff] at hx
        omega
      | some x => rfl
    exact List.get?_mem hsome
  have hcur2 : current < 2 := hmem current hcur
  have hchild : ∃ child, child ≠ current ∧ child < 2 ∧
      childrenOf s.memory current = [child] := by
    interval_cases current
    · exact ⟨1, by omega, by omega, by unfold childrenOf; rw [h0]; rfl⟩
    · exact ⟨0, by omega, by omega, by unfold childrenOf; rw [h1]; rfl⟩
  obtain ⟨child, hne, hchild2, htrace⟩ := hchild
  have hmark : markChildren s.memory [child] =
      some (setCellMarked s.memory child) := by
    unfold markChildren markChildAt
    rw [if_pos (by omega)]
    rfl
  refine ⟨{ memory := setCellMarked s.memory child,
            worklist := s.worklist ++ [child],
            live_index := s.live_index + 1 }, ?_, ?_, ?_, ?_, ?_, ?_⟩
  · simp only [markStep, ← hcurdef, htrace, hmark]
  · rw [getValueMem_setCellMarked]; exact h0
  · rw [getValueMem_setCellMarked]; exact h1
  · rw [length_setCellMarked]; exact hlen
  · rw [List.length_append]; simp [hwl]
  · intro i hi
    rw [List.mem_append] at hi
    rcases hi with hi | hi
    · exact hmem i hi
    · simp at hi; omega

/-- On the cyclic heap the worklist loop never terminates: the guard holds
at every fuel level. -/
theorem markLoop_cyclic_none : ∀ (fuel : Nat) (s : MarkState),
    CyclicInv s → markLoop fuel s = none := by
  intro fuel
  induction fuel with
  | zero =>
    intro s h
    obtain ⟨-, -, -, hwl, -⟩ := h
    unfold markLoop
    rw [if_pos (by omega)]
  | succ f ih =>
    intro s h
    have hguard : s.live_index < s.worklist.length := by
      obtain ⟨-, -, -, hwl, -⟩ := h
      omega
    unfold markLoop
    rw [if_pos hguard]
    obtain ⟨s2, hstep, hinv2⟩ := cyclicInv_markStep h hguard
    rw [hstep]
    exact ih s2 hinv2

/-- C5: the mark phase of Heap::collect marks and enqueues every traced
child unconditionally, without the not-yet-marked check the claim
describes, so on the cyclic-vectors heap (two Lists pointing at each other,
one pinned) the worklist grows forever and collect never terminates: it
exhausts every fuel bound. -/
theorem collect_diverges_on_cyclic_vectors (fuel : Nat) :
    collect fuel cyclicHeap = none := by
  have h0 : markPhase fuel cyclicHeap =
      markLoop fuel
        { memory :=
            [{ value := .List [1], state := .Marked, forwarding_address := none },
             { value := .List [0], state := .Unmarked, forwarding_address := none }],
          worklist := [0], live_index := 0 } := rfl
  have hinv : CyclicInv
      { memory :=
          [{ value := .List [1], state := .Marked, forwarding_address := none },
           { value := .List [0], state := .Unmarked, forwarding_address := none }],
        worklist := [0], live_index := 0 } := by
    refine ⟨rfl, rfl, rfl, rfl, ?_⟩
    intro i hi
    simp at hi
    omega
  unfold collect
  rw [h0, markLoop_cyclic_none fuel _ hinv]

end NyarGc

namespace NyarGc

/-- Marks are monotone under marking a cell. -/
theorem isMarked_setCellMarked_mono {mem : List GcCell} {i : Nat} (j : Nat)
    (h : isMarked mem i = true) : isMarked (setCellMarked mem j) i = true := by
  unfold setCellMarked
  cases hj : mem.get? j with
  | none => exact h
  | some c =>
    rw [List.get?_eq_getElem?] at hj
    obtain ⟨hjlt, _⟩ := List.getElem?_eq_some.mp hj
    unfold isMarked at h ⊢
    by_cases hij : j = i
    · subst hij
      rw [List.get?_eq_getElem?, List.getElem?_set_eq_of_lt _ hjlt]
      rfl
    · rw [List.get?_eq_getElem?, List.getElem?_set_ne hij,
        ← List.get?_eq_getElem?]
      exact h

/-- Marking an in-bounds cell marks it. -/
theorem isMarked_setCellMarked_self {mem : List GcCell} {j : Nat}
    (hj : j < mem.length) : isMarked (setCellMarked mem j) j = true := by
  unfold setCellMarked
  cases hg : mem.get? j with
  | none =>
    rw [List.get?_eq_getElem?, List.getElem?_eq_none_iff] at hg
    omega
  | some c =>
    unfold isMarked
    rw [List.get?_eq_getElem?, List.getElem?_set_eq_of_lt _ hj]
    rfl

/-- A mark in the result of setCellMarked was present before or is the
marked index itself. -/
theorem isMarked_setCellMarked_cases {mem : List GcCell} {i j : Nat}
    (h : isMarked (setCellMarked mem j) i = true) :
    isMarked mem i = true ∨ i = j := by
  unfold setCellMarked at h
  cases hj : mem.get? j with
  | none => rw [hj] at h; exact Or.inl h
  | some c =>
    rw [hj] at h
    by_cases hij : i = j
    · exact Or.inr hij
    · left
      unfold isMarked at h ⊢
      rw [List.get?_eq_getElem?, List.getElem?_set_ne (by omega),
        ← List.get?_eq_getElem?] at h
      exact h

/-- markChildren keeps old marks, marks all its children in bounds, and
adds no mark beyond the old ones and the children. -/
theorem markChildren_marks {cs : List Nat} :
    ∀ {mem mem2 : List GcCell}, markChildren mem cs = some mem2 →
      (∀ i, isMarked mem i = true → isMarked mem2 i = true) ∧
      (∀ c ∈ cs, c < mem2.length ∧ isMarked mem2 c = true) ∧
      (∀ i, isMarked mem2 i = true → isMarked mem i = true ∨ i ∈ cs) := by
  induction cs with
  | nil =>
    intro mem mem2 h
    unfold markChildren at h
    cases h
    exact ⟨fun i hi => hi, by simp, fun i hi => Or.inl hi⟩
  | cons c cs ih =>
    intro mem mem2 h
    unfold markChildren markChildAt at h
    by_cases hc : c < mem.length
    · rw [if_pos hc] at h
      obtain ⟨ihmono, ihall, ihcases⟩ := ih h
      obtain ⟨hvals, hlen⟩ := markChildren_preserves h
      have hlen1 : (setCellMarked mem c).length = mem.length :=
        length_setCellMarked mem c
      refine ⟨?_, ?_, ?_⟩
      · intro i hi
        exact ihmono i (isMarked_setCellMarked_mono c hi)
      · intro x hx
        rcases List.mem_cons.mp hx with hx | hx
        · subst hx
          refine ⟨by omega, ?_⟩
          exact ihmono x (isMarked_setCellMarked_self hc)
        · exact ihall x hx
      · intro i hi
        rcases ihcases i hi with hi2 | hi2
        · rcases isMarked_setCellMarked_cases hi2 with hi3 | hi3
          · exact Or.inl hi3
          · exact Or.inr (by simp [hi3])
        · exact Or.inr (by simp [hi2])
    · rw [if_neg hc] at h
      cases h

/-- Destructuring a successful markStep. -/
theorem markStep_some {s s2 : MarkState} (h : markStep s = some s2) :
    ∃ mem2,
      markChildren s.memory
        (childrenOf s.memory (s.worklist.getD s.live_index 0)) = some mem2 ∧
      s2 = { memory := mem2,
             worklist := s.worklist ++
               childrenOf s.memory (s.worklist.getD s.live_index 0),
             live_index := s.live_index + 1 } := by
  unfold markStep at h
  cases hmc : markChildren s.memory
      (childrenOf s.memory (s.worklist.getD s.live_index 0)) with
  | none =>
    simp only [hmc] at h
    exact Option.noConfusion h
  | some mem2 =>
    simp only [hmc] at h
    injection h with h2
    exact ⟨mem2, rfl, h2.symm⟩

/-- childrenOk transports along value-preserving, length-preserving memory
changes with monotone marks. -/
theorem childrenOk_transport {mem mem2 : List GcCell} {i : Nat}
    (hvals : ∀ j, getValueMem mem2 j = getValueMem mem j)
    (hlen : mem2.length = mem.length)
    (hmono : ∀ j, isMarked mem j = true → isMarked mem2 j = true)
    (h : childrenOk mem i) : childrenOk mem2 i := by
  intro c hc
  have hch : childrenOf mem2 i = childrenOf mem i := by
    unfold childrenOf
    rw [hvals i]
  rw [hch] at hc
  obtain ⟨h1, h2⟩ := h c hc
  exact ⟨by omega, hmono c h2⟩

/-- A successful markStep preserves the worklist invariant. -/
theorem markInv_markStep {s s2 : MarkState} (hinv : MarkInv s)
    (hlt : s.live_index < s.worklist.length) (hstep : markStep s = some s2) :
    MarkInv s2 := by
  obtain ⟨hproc, hmarkmem, hwl⟩ := hinv
  obtain ⟨mem2, hmc, hs2⟩ := markStep_some hstep
  obtain ⟨hvals, hlen⟩ := markChildren_preserves hmc
  obtain ⟨hmono, hall, hcases⟩ := markChildren_marks hmc
  set current := s.worklist.getD s.live_index 0 with hcur
  set children := childrenOf s.memory current with hch
  have hch2 : childrenOf mem2 current = childrenOf s.memory current := by
    unfold childrenOf
    rw [hvals current]
  have hgetD : ∀ k, k < s.worklist.length →
      (s.worklist ++ children).getD k 0 = s.worklist.getD k 0 := by
    intro k hk
    rw [List.getD_eq_getElem?_getD, List.getD_eq_getElem?_getD,
      List.getElem?_append, if_pos hk]
  subst hs2
  refine ⟨?_, ?_, ?_⟩
  · intro k hk
    simp only at hk ⊢
    rw [hgetD k (by omega)]
    by_cases hkl : k < s.live_index
    · exact childrenOk_transport hvals hlen hmono (hproc k hkl)
    · have hkeq : k = s.live_index := by omega
      subst hkeq
      intro c hc
      rw [hch2] at hc
      exact hall c hc
  · intro i hi
    simp only at hi ⊢
    rcases hcases i hi with hi2 | hi2
    · exact List.mem_append.mpr (Or.inl (hmarkmem i hi2))
    · exact List.mem_append.mpr (Or.inr hi2)
  · intro i hi
    simp only at hi ⊢
    rcases List.mem_append.mp hi with hi2 | hi2
    · obtain ⟨h1, h2⟩ := hwl i hi2
      exact ⟨hmono i h1, by omega⟩
    · obtain ⟨h1, h2⟩ := hall i hi2
      exact ⟨h2, by omega⟩

/-- A successful markLoop preserves values, length, marks and the
invariant, and ends with the loop guard false. -/
theorem markLoop_facts {fuel : Nat} : ∀ {s s2 : MarkState},
    markLoop fuel s = some s2 → MarkInv s →
    (∀ j, getValueMem s2.memory j = getValueMem s.memory j) ∧
    s2.memory.length = s.memory.length ∧
    (∀ i, isMarked s.memory i = true → isMarked s2.memory i = true) ∧
    MarkInv s2 ∧ ¬ s2.live_index < s2.worklist.length := by
  induction fuel with
  | zero =>
    intro s s2 h hinv
    unfold markLoop at h
    by_cases hg : s.live_index < s.worklist.length
    · rw [if_pos hg] at h; cases h
    · rw [if_neg hg] at h
      injection h with h2
      subst h2
      exact ⟨fun j => rfl, rfl, fun i hi => hi, hinv, hg⟩
  | succ f ih =>
    intro s s2 h hinv
    unfold markLoop at h
    by_cases hg : s.live_index < s.worklist.length
    · rw [if_pos hg] at h
      cases hstep : markStep s with
      | none => rw [hstep] at h; cases h
      | some s1 =>
        rw [hstep] at h
        have hinv1 := markInv_markStep hinv hg hstep
        obtain ⟨hvals, hlen, hmono, hinv2, hguard⟩ := ih h hinv1
        obtain ⟨mem2, hmc, hs1⟩ := markStep_some hstep
        obtain ⟨hvals0, hlen0⟩ := markChildren_preserves hmc
        obtain ⟨hmono0, -, -⟩ := markChildren_marks hmc
        refine ⟨?_, ?_, ?_, hinv2, hguard⟩
        · intro j
          rw [hvals j, hs1]
          exact hvals0 j
        · rw [hlen, hs1]
          exact hlen0
        · intro i hi
          refine hmono i ?_
          rw [hs1]
          exact hmono0 i hi
    · rw [if_neg hg] at h
      injection h with h2
      subst h2
      exact ⟨fun j => rfl, rfl, fun i hi => hi, hinv, hg⟩

end NyarGc

namespace NyarGc

/-- seedRoot preserves values and length. -/
theorem seedRoot_preserves (acc : List GcCell × List Nat) (r : Nat) :
    (∀ j, getValueMem (seedRoot acc r).1 j = getValueMem acc.1 j) ∧
    (seedRoot acc r).1.length = acc.1.length := by
  unfold seedRoot
  by_cases hr : r < acc.1.length
  · rw [if_pos hr]
    exact ⟨fun j => getValueMem_setCellMarked acc.1 r j,
      length_setCellMarked acc.1 r⟩
  · rw [if_neg hr]
    exact ⟨fun j => rfl, rfl⟩

/-- seedRoot keeps existing marks. -/
theorem seedRoot_mono (acc : List GcCell × List Nat) (r i : Nat)
    (h : isMarked acc.1 i = true) : isMarked (seedRoot acc r).1 i = true := by
  unfold seedRoot
  by_cases hr : r < acc.1.length
  · rw [if_pos hr]
    exact isMarked_setCellMarked_mono r h
  · rw [if_neg hr]
    exact h

/-- Facts about the root-seeding fold of step 2.1: values, length and old
marks are preserved, every in-bounds root ends up marked, and the
mark-versus-worklist invariants carry over. -/
theorem seedRoot_foldl_facts (roots : List Nat) :
    ∀ acc : List GcCell × List Nat,
      (∀ j, getValueMem (roots.foldl seedRoot acc).1 j = getValueMem acc.1 j) ∧
      (roots.foldl seedRoot acc).1.length = acc.1.length ∧
      (∀ i, isMarked acc.1 i = true →
        isMarked (roots.foldl seedRoot acc).1 i = true) ∧
      (∀ r ∈ roots, r < acc.1.length →
        isMarked (roots.foldl seedRoot acc).1 r = true) ∧
      ((∀ i, isMarked acc.1 i = true → i ∈ acc.2) →
        (∀ i ∈ acc.2, isMarked acc.1 i = true ∧ i < acc.1.length) →
        (∀ i, isMarked (roots.foldl seedRoot acc).1 i = true →
          i ∈ (roots.foldl seedRoot acc).2) ∧
        (∀ i ∈ (roots.foldl seedRoot acc).2,
          isMarked (roots.foldl seedRoot acc).1 i = true ∧
          i < (roots.foldl seedRoot acc).1.length)) := by
  induction roots with
  | nil =>
    intro acc
    exact ⟨fun j => rfl, rfl, fun i h => h, by simp, fun h1 h2 => ⟨h1, h2⟩⟩
  | cons r0 rest ih =>
    intro acc
    obtain ⟨ihv, ihl, ihm, ihr, ihinv⟩ := ih (seedRoot acc r0)
    obtain ⟨hsv, hsl⟩ := seedRoot_preserves acc r0
    rw [List.foldl_cons]
    refine ⟨?_, ?_, ?_, ?_, ?_⟩
    · intro j
      rw [ihv j, hsv j]
    · rw [ihl, hsl]
    · intro i hi
      exact ihm i (seedRoot_mono acc r0 i hi)
    · intro r hr hrlt
      rcases List.mem_cons.mp hr with hr0 | hrest
    
      · subst hr0
        refine ihm r ?_
        unfold seedRoot
        rw [if_pos hrlt]
        exact isMarked_setCellMarked_self hrlt
      · exact ihr r hrest (by omega)
    · intro h1 h2
      refine ihinv ?_ ?_
      · intro i hi
        unfold seedRoot at hi ⊢
        by_cases hr : r0 < acc.1.length
        · rw [if_pos hr] at hi ⊢
          rcases isMarked_setCellMarked_cases hi with hi2 | hi2
          · exact List.mem_append.mpr (Or.inl (h1 i hi2))
          · exact List.mem_append.mpr (Or.inr (by simp [hi2]))
        · rw [if_neg hr] at hi ⊢
          exact h1 i hi
      · intro i hi
        unfold seedRoot at hi ⊢
        by_cases hr : r0 < acc.1.length
        · rw [if_pos hr] at hi ⊢
          rw [length_setCellMarked]
          rcases List.mem_append.mp hi with hi2 | hi2
          · obtain ⟨ha, hb⟩ := h2 i hi2
            exact ⟨isMarked_setCellMarked_mono r0 ha, hb⟩
          · have hieq : i = r0 := by simpa using hi2
            subst hieq
            exact ⟨isMarked_setCellMarked_self hr, hr⟩
        · rw [if_neg hr] at hi ⊢
          exact h2 i hi

/-- The reset pass of step 1: values and length preserved, every mark
cleared. -/
theorem reset_facts (mem : List GcCell) :
    (∀ j, getValueMem (mem.map (fun c =>
      { c with state := GcState.Unmarked, forwarding_address := none })) j =
      getValueMem mem j) ∧
    (mem.map (fun c =>
      { c with state := GcState.Unmarked, forwarding_address := none })).length =
      mem.length ∧
    (∀ i, isMarked (mem.map (fun c =>
      { c with state := GcState.Unmarked, forwarding_address := none })) i = false) := by
  refine ⟨?_, by simp, ?_⟩
  · intro j
    unfold getValueMem
    rw [List.get?_eq_getElem?, List.get?_eq_getElem?, List.getElem?_map]
    cases mem[j]? <;> rfl
  · intro i
    unfold isMarked
    rw [List.get?_eq_getElem?, List.getElem?_map]
    cases mem[i]? <;> rfl

/-- The marked-below count grows strictly when passing a marked index. -/
theorem count_filter_lt (p : Nat → Bool) {i : Nat} : ∀ {n : Nat}, i < n →
    p i = true →
    ((List.range i).filter p).length < ((List.range n).filter p).length := by
  intro n
  induction n with
  | zero => intro h _; omega
  | succ m ihm =>
    intro hi hp
    rw [List.range_succ, List.filter_append]
    by_cases him : i < m
    · have := ihm him hp
      rw [List.length_append]
      omega
    · have hieq : i = m := by omega
      subst hieq
      have hone : (List.filter p [i]).length = 1 := by
        simp [List.filter_cons, hp]
      rw [List.length_append, hone]
      omega

/-- The filtered range, indexed at the marked-below count of a passing
index, gives back that index (the forwarding enumeration of step 3). -/
theorem filter_rank (p : Nat → Bool) : ∀ (n : Nat) {i : Nat}, i < n →
    p i = true →
    ((List.range n).filter p)[((List.range i).filter p).length]? = some i := by
  intro n
  induction n with
  | zero => intro i h _; omega
  | succ m ihm =>
    intro i hi hp
    rw [List.range_succ, List.filter_append]
    by_cases him : i < m
    · rw [List.getElem?_append, if_pos (count_filter_lt p him hp)]
      exact ihm him hp
    · have hieq : i = m := by omega
      subst hieq
      rw [List.getElem?_append, if_neg (by omega)]
      simp [List.filter_cons, hp]

/-- The compacted store, indexed at a marked cell's forwarding address,
holds that cell's rewritten value with its state reset. -/
theorem compactMem_getElem (mem : List GcCell) {i : Nat} (hi : i < mem.length)
    (hm : isMarked mem i = true) :
    (compactMem mem)[countMarkedBelow mem i]? =
      some { value := rewriteValue mem ((getValueMem mem i).getD .Null),
             state := .Unmarked, forwarding_address := none } := by
  unfold compactMem countMarkedBelow
  rw [List.getElem?_map, filter_rank _ mem.length hi hm]
  rfl

/-- getValueMem through the compacted store. -/
theorem getValueMem_compact (mem : List GcCell) {i : Nat} (hi : i < mem.length)
    (hm : isMarked mem i = true) :
    getValueMem (compactMem mem) (countMarkedBelow mem i) =
      some (rewriteValue mem ((getValueMem mem i).getD .Null)) := by
  unfold getValueMem
  rw [List.get?_eq_getElem?, compactMem_getElem mem hi hm]
  rfl

/-- The zip of a list with its map is checked pointwise. -/
theorem zip_map_all {α β : Type} (f : α → β) (P : α × β → Bool) :
    ∀ (cs : List α), ((cs.zip (cs.map f)).all P) = cs.all (fun c => P (c, f c)) := by
  intro cs
  induction cs with
  | nil => rfl
  | cons c cs ih => simp [List.all_cons, ih]

end NyarGc

namespace NyarGc

/-- structEq only reads values of the left memory. -/
theorem structEq_congr_left {m1 m1' m2 : List GcCell}
    (h : ∀ j, getValueMem m1 j = getValueMem m1' j) :
    ∀ (d i j2 : Nat), structEq m1 m2 d i j2 = structEq m1' m2 d i j2 := by
  intro d
  induction d with
  | zero => intro i j2; rfl
  | succ d ih =>
    intro i j2
    unfold structEq
    rw [h i]
    cases getValueMem m1' i with
    | none => rfl
    | some v =>
      cases getValueMem m2 j2 with
      | none => cases v <;> rfl
      | some w =>
        cases v <;> cases w <;> try rfl
        next cs ds =>
          have hz : ((cs.zip ds).all fun p => structEq m1 m2 d p.1 p.2) =
              ((cs.zip ds).all fun p => structEq m1' m2 d p.1 p.2) := by
            induction cs.zip ds with
            | nil => rfl
            | cons p ps ihp => simp [List.all_cons, ih, ihp]
          dsimp only
          rw [hz]

/-- Main compaction lemma: a marked in-bounds cell is structurally equal,
to every depth, to its image at its forwarding address in the compacted
store, provided the marked set is closed under children. -/
theorem structEq_compact (mem : List GcCell)
    (hclosed : ∀ i, isMarked mem i = true → childrenOk mem i) :
    ∀ (d i : Nat), i < mem.length → isMarked mem i = true →
      structEq mem (compactMem mem) d i (countMarkedBelow mem i) = true := by
  intro d
  induction d with
  | zero => intro i _ _; rfl
  | succ d ih =>
    intro i hi hm
    obtain ⟨v, hvi⟩ : ∃ v, getValueMem mem i = some v := by
      unfold getValueMem
      rw [List.get?_eq_getElem?, List.getElem?_eq_getElem hi]
      exact ⟨_, rfl⟩
    have hvc : getValueMem (compactMem mem) (countMarkedBelow mem i) =
        some (rewriteValue mem v) := by
      rw [getValueMem_compact mem hi hm, hvi]
      rfl
    unfold structEq
    rw [hvi, hvc]
    cases v with
    | Null => rfl
    | Number a => simp [rewriteValue]
    | String s => simp [rewriteValue]
    | List cs =>
      have hchild : ∀ c2 ∈ cs, c2 < mem.length ∧ isMarked mem c2 = true := by
        have hok := hclosed i hm
        unfold childrenOk childrenOf at hok
        rw [hvi] at hok
        exact hok
      dsimp only [rewriteValue]
      rw [zip_map_all]
      simp only [List.length_map, beq_self_eq_true, Bool.true_and]
      apply List.all_eq_true.mpr
      intro c2 hc2
      obtain ⟨hb, hm2⟩ := hchild c2 hc2
      have hrw : rewriteChild mem c2 = countMarkedBelow mem c2 := by
        unfold rewriteChild
        rw [if_pos ⟨hb, hm2⟩]
      simp only [hrw]
      exact ih c2 hb hm2

/-- The facts a successful mark phase provides: values and length match the
input heap, the marked set is closed under children, and every in-bounds
pinned root is marked. -/
theorem markPhase_facts {fuel : Nat} {h : Heap} {s : MarkState}
    (hp : markPhase fuel h = some s) :
    (∀ j, getValueMem s.memory j = getValueMem h.memory j) ∧
    s.memory.length = h.memory.length ∧
    (∀ i, isMarked s.memory i = true → childrenOk s.memory i) ∧
    (∀ r ∈ h.roots, r < h.memory.length → isMarked s.memory r = true) := by
  unfold markPhase at hp
  set mem0 := h.memory.map (fun c =>
    { c with state := GcState.Unmarked, forwarding_address := none }) with hmem0
  obtain ⟨hrv, hrl, hrm⟩ := reset_facts h.memory
  set seeded := h.roots.foldl seedRoot (mem0, []) with hseed
  obtain ⟨hsv, hsl, hsm, hsr, hsinv⟩ := seedRoot_foldl_facts h.roots (mem0, [])
  obtain ⟨hinv1, hinv2⟩ := hsinv
    (fun i hi => absurd hi (by rw [hrm i]; simp))
    (by simp)
  have hinvseed : MarkInv { memory := seeded.1, worklist := seeded.2, live_index := 0 } := by
    refine ⟨fun k hk => absurd hk (Nat.not_lt_zero k), hinv1, hinv2⟩
  obtain ⟨hlv, hll, hlm, hlinv, hlguard⟩ := markLoop_facts hp hinvseed
  obtain ⟨hproc, hmarkmem, hwl⟩ := hlinv
  refine ⟨?_, ?_, ?_, ?_⟩
  · intro j
    rw [hlv j]
    simp only
    rw [hsv j, hrv j]
  · rw [hll]
    simp only
    rw [hsl, hrl]
  · intro i hi
    have hiw : i ∈ s.worklist := hmarkmem i hi
    obtain ⟨k, hk, hki⟩ := List.mem_iff_getElem.mp hiw
    have hgd : s.worklist.getD k 0 = i := by
      rw [List.getD_eq_getElem?_getD, List.getElem?_eq_getElem hk, hki]
      rfl
    have hkd : k < s.live_index := by omega
    have := hproc k hkd
    rw [hgd] at this
    exact this
  · intro r hr hrlt
    refine hlm r ?_
    simp only
    refine hsr r hr ?_
    rw [hrl]
    exact hrlt

/-- C4: for every handle pinned in the root registry before collect that
dereferences to a value, after a terminating collect the rewritten root
(at its forwarding address) is a member of the new root set and
dereferences to a Value structurally equal, at every depth, to the Value
the handle referred to before collect. -/
theorem collect_preserves_pinned_roots (fuel : Nat) (h h2 : Heap) (r : Nat)
    (v : Value) (hc : collect fuel h = some h2) (hr : r ∈ h.roots)
    (hv : getValueMem h.memory r = some v) :
    ∃ r2, rootForward fuel h r = some r2 ∧ r2 ∈ h2.roots ∧
      ∀ d, structEq h.memory h2.memory d r r2 = true := by
  unfold collect at hc
  cases hp : markPhase fuel h with
  | none => rw [hp] at hc; exact Option.noConfusion hc
  | some s =>
    rw [hp] at hc
    injection hc with hc2
    obtain ⟨hvals, hlen, hclosed, hrootmark⟩ := markPhase_facts hp
    have hrlt : r < h.memory.length := by
      unfold getValueMem at hv
      rw [List.get?_eq_getElem?] at hv
      cases hx : h.memory[r]? with
      | none => rw [hx] at hv; exact Option.noConfusion hv
      | some c =>
        rw [List.getElem?_eq_some] at hx
        obtain ⟨hx2, -⟩ := hx
        exact hx2
    have hm : isMarked s.memory r = true := hrootmark r hr hrlt
    have hrlt2 : r < s.memory.length := by omega
    refine ⟨countMarkedBelow s.memory r, ?_, ?_, ?_⟩
    · unfold rootForward
      rw [hp]
      rfl
    · rw [← hc2]
      simp only [newRoots]
      apply List.mem_filterMap.mpr
      refine ⟨r, hr, ?_⟩
      rw [if_pos ⟨hrlt2, hm⟩]
    · intro d
      have hmain := structEq_compact s.memory hclosed d r hrlt2 hm
      rw [structEq_congr_left hvals d r (countMarkedBelow s.memory r)] at hmain
      rw [← hc2]
      exact hmain

/-- Witness for C4 on a two-cell heap whose pinned root is a List pointing
at a Number: collect with fuel 3 succeeds and the forwarded root survives
structurally intact. -/
theorem collect_preserves_pinned_roots_witness :
    ∃ r2, rootForward 3 fixHeap 0 = some r2 ∧
      r2 ∈ (({ roots := [0], memory :=
        [{ value := Value.List [1], state := .Unmarked, forwarding_address := none },
         { value := Value.Number 7, state := .Unmarked, forwarding_address := none }] } : Heap)).roots ∧
      ∀ d, structEq fixHeap.memory
        ({ roots := [0], memory :=
          [{ value := Value.List [1], state := .Unmarked, forwarding_address := none },
           { value := Value.Number 7, state := .Unmarked, forwarding_address := none }] } : Heap).memory
        d 0 r2 = true :=
  collect_preserves_pinned_roots 3 fixHeap
    { roots := [0], memory :=
      [{ value := Value.List [1], state := .Unmarked, forwarding_address := none },
       { value := Value.Number 7, state := .Unmarked, forwarding_address := none }] }
    0 (Value.List [1]) (by decide) (by decide) (by decide)

end NyarGc
